import Mathlib

/-!
Verification development for the Scribe STEP-viewer metadata core.

The HTTP routes of `src/app.py` are embedded shallowly: each Flask route
becomes a pure transition function on an explicit `SysState`.  Collaborator
modules that are not part of the source tree (`core/state`, `core/loader`,
`core/metadata`, `core/exporter`, `face_db`, `core/utils`) are modelled from
the specification; every such definition carries a doc comment starting with
`Modelled from the spec:`.  Machine text (STEP file contents) is modelled as
`List Char`, and the three regex substitutions of the purge workflow are
embedded as character-level scanners with the exact matching semantics of the
patterns in `admin_clear_metadata`.
-/

set_option maxHeartbeats 1000000

namespace Scribe

/-! ### Characters and literal fragments -/

/-- The single-quote character `'` (ASCII 39), written via its code so the
development never has to spell the character literally. -/
def qc : Char := Char.ofNat 39

/-- ASCII whitespace, the characters matched by the regex class `\s` on the
ASCII plane (space, tab, newline, carriage return, vertical tab, form feed). -/
def isWS (c : Char) : Bool :=
  c == ' ' || c == Char.ofNat 9 || c == Char.ofNat 10 ||
  c == Char.ofNat 13 || c == Char.ofNat 11 || c == Char.ofNat 12

/-- Keyword of strategy 1: the descriptive entity name. -/
def pDRI : List Char := "DESCRIPTIVE_REPRESENTATION_ITEM".toList

/-- Opening literal of strategy 2's description tag, regex `\[SVFM:`. -/
def pSVFM : List Char := "[SVFM:".toList

/-- Closing literal of strategy 2's description tag, regex `\]`. -/
def pRB : List Char := "]".toList

/-- Opening sentinel of strategy 3's comment block. -/
def pComStart : List Char := "/* __STEPVIEWER_META_START__ ".toList

/-- Closing sentinel of strategy 3's comment block. -/
def pComEnd : List Char := " __STEPVIEWER_META_END__ */".toList

/-- Short entity tag accepted by the strategy-1 pattern. -/
def tagSVFM : List Char := "SVFM".toList

/-- Long entity tag accepted by the strategy-1 pattern. -/
def tagLong : List Char := "StepViewerFaceMetadata".toList

/-! ### Metadata records

`app.py` stores per-face metadata as a dict with keys `color`, `thread`,
`tolerance`; thread and tolerance values are dicts with fixed string fields
(`set_thread` lines 222–227, `set_tolerance` lines 423–427). -/

/-- Thread sub-record: the four string fields written by `set_thread`. -/
structure ThreadSpec where
  ttype : String
  size : String
  pitch : String
  tclass : String
deriving DecidableEq, Repr, Inhabited

/-- Tolerance sub-record: the three string fields written by `set_tolerance`. -/
structure TolSpec where
  ttype : String
  value : String
  datum : String
deriving DecidableEq, Repr, Inhabited

/-- One face's metadata record: the dict stored in `model.face_meta[face_id]`.
A field that is `none` corresponds to the key being absent from the dict. -/
structure FaceRecord where
  color : Option String := none
  thread : Option ThreadSpec := none
  tolerance : Option TolSpec := none
deriving DecidableEq, Repr, Inhabited

/-- The empty record, i.e. the empty Python dict. -/
def FaceRecord.empty : FaceRecord := {}

/-- Python dict falsiness: a record with no attribute set. -/
def FaceRecord.isEmpty (r : FaceRecord) : Bool :=
  r.color.isNone && r.thread.isNone && r.tolerance.isNone

/-! ### Association maps

`model.face_meta` is a Python dict from face index to record; the fingerprint
store is a table keyed by hash.  Both are embedded as association lists with
first-occurrence lookup. -/

/-- Lookup in an association list (first matching key wins, like dict access). -/
def alookup {α β : Type} [DecidableEq α] : List (α × β) → α → Option β
  | [], _ => none
  | (k, v) :: r, a => if k = a then some v else alookup r a

/-- `m[k] = f (m.get k default)`: update the first entry with the given key,
or append a fresh entry (Python dict insertion order). -/
def aupdate {α β : Type} [DecidableEq α] (d : β) (f : β → β) :
    List (α × β) → α → List (α × β)
  | [], a => [(a, f d)]
  | (k, v) :: r, a => if k = a then (k, f v) :: r else (k, v) :: aupdate d f r a

/-- `del m[k]`: remove the first entry with the given key. -/
def aerase {α β : Type} [DecidableEq α] : List (α × β) → α → List (α × β)
  | [], _ => []
  | (k, v) :: r, a => if k = a then r else (k, v) :: aerase r a

/-- In-memory metadata map `model.face_meta`. -/
def MetaMap : Type := List (Nat × FaceRecord)

instance : DecidableEq MetaMap := by unfold MetaMap; infer_instance

/-! ### The fingerprint store (`face_db`) -/

/-- One row of the fingerprint store: record plus optional raw descriptor. -/
structure StoreEntry where
  record : FaceRecord
  raw : Option String
deriving DecidableEq, Repr, Inhabited

/-- The fingerprint store: a table keyed by fingerprint hash. -/
def Store : Type := List (String × StoreEntry)

instance : DecidableEq Store := by unfold Store; infer_instance

/-- Modelled from the spec: `face_db.save_face_meta` is not under `src/`.
Spec §4.4 `put(fingerprint, record, raw?)`: upsert, overwriting any existing
record for that fingerprint.  (The callers in `app.py` all guard with
`if meta:`, so the empty-record case never reaches the store.) -/
def save_face_meta (st : Store) (fh : String) (rec : FaceRecord)
    (raw : Option String) : Store :=
  aupdate ⟨rec, raw⟩ (fun _ => ⟨rec, raw⟩) st fh

/-- Modelled from the spec: `face_db.delete_faces` is not under `src/`.
Spec §4.4 `delete_many(fingerprints)`: removes entries for the given
fingerprints; absent fingerprints are silently ignored. -/
def delete_faces (st : Store) (hs : List String) : Store :=
  st.filter (fun e => !(hs.contains e.1))

/-! ### Geometry and the document session (`core.state.model`) -/

/-- A face's geometric descriptor, as far as the routes inspect it:
`get_holes` only asks whether the adapted surface is a cylinder and for its
radius.  Radii are modelled as rationals. -/
inductive Surf where
  | cyl (radius : ℚ)
  | noncyl
deriving DecidableEq, Repr, Inhabited

/-- Modelled from the spec: `core.state.model` is not under `src/`.  Spec §3
Document Session: `{document handle, faces[], fingerprints[], raw
descriptors[], metadata map, document identifier}`.  A fingerprint is a
`String`; the empty string models a falsy (absent) hash and `"unknown"` the
explicit unknown marker used by `app.py`. -/
structure DocModel where
  doc : Option Unit := none
  face_shapes : List Surf := []
  face_labels : List Bool := []
  face_hashes : List String := []
  face_raws : List (Option String) := []
  face_meta : MetaMap := []
  model_uuid : Option String := none
  original_filename : Option String := none
deriving DecidableEq

/-- Modelled from the spec: `core.state.model.reset()` is not under `src/`.
Spec §3: the session is "reset to empty" — every field cleared. -/
def DocModel.reset : DocModel := {}

/-- The uploads folder: files keyed by uuid stem (path handling abstracted
to the identifier, spec §6: "one interchange file per document identifier,
addressed by that identifier as filename stem"). -/
def Files : Type := List (String × List Char)

instance : DecidableEq Files := by unfold Files; infer_instance

/-- Whole-system state visible to the routes: the session singleton, the
fingerprint store, and the uploads folder. -/
structure SysState where
  model : DocModel
  store : Store
  files : Files
deriving DecidableEq

/-- Data produced by a successful load, used to populate the session. -/
structure LoadData where
  shapes : List Surf
  labels : List Bool
  hashes : List String
  raws : List (Option String)
  meta : MetaMap
deriving DecidableEq

/-- Modelled from the spec: `core.loader.load_step_xcaf` is not under `src/`.
Spec §6 Loader: all-or-nothing; on success the session is populated wholesale
(faces, fingerprints, descriptors, hydrated metadata map), on failure the
session is untouched by the loader itself.  The loader's parsing behaviour is
abstracted as a function argument `loader`. -/
def populate (m : DocModel) (d : LoadData) : DocModel :=
  { m with
    doc := some ()
    face_shapes := d.shapes
    face_labels := d.labels
    face_hashes := d.hashes
    face_raws := d.raws
    face_meta := d.meta }

/-- Result payload common to the JSON routes. -/
structure OpResult where
  ok : Bool
  status : Nat
  db_updated_count : Nat := 0
  errorMsg : Option String := none
deriving DecidableEq, Repr

/-- Error result helper: `jsonify({"error": msg}), code`. -/
def errOut (code : Nat) (msg : String) : OpResult :=
  { ok := false, status := code, errorMsg := some msg }

/-! ### `set_color`, `set_thread`, `set_tolerance` -/

/-- Modelled from the spec: `core.utils.hex_to_quantity` is not under `src/`.
It converts a `#RRGGBB` string to a colour and raises on malformed input;
modelled as a validity test (`none` = raises). -/
def hex_to_quantity (s : String) : Option Unit :=
  let cs := s.toList
  if cs.length = 7 ∧ cs.headD ' ' = '#' ∧
      (cs.drop 1).all (fun c => c.isDigit || (c.isAlpha)) then some () else none

/-- One item of a `set_color` batch (`face_id` and `color` read via
`.get`, so either may be absent). -/
structure ColorItem where
  face_id : Option Int
  color : Option String
deriving DecidableEq, Repr

/-- One item of a `set_thread` batch.  `thread = none` models a missing,
null or empty-dict (falsy) thread value. -/
structure ThreadItem where
  face_id : Option Int
  thread : Option ThreadSpec
deriving DecidableEq, Repr

/-- One item of a `set_tolerance` batch. -/
structure TolItem where
  face_id : Option Int
  tolerance : Option TolSpec
deriving DecidableEq, Repr

/-- The shared DB-persistence tail of the three setters (`app.py` lines
160–167, 235–242, 434–440): look up the face's fingerprint; skip when the
index is outside `face_hashes`, the hash is falsy or `"unknown"`, or the
record is now empty; otherwise upsert and count. -/
def persistFace (s : SysState) (cnt : Nat) (i : Nat) : SysState × Nat :=
  if i < s.model.face_hashes.length then
    let fh := s.model.face_hashes.getD i ""
    let raw := s.model.face_raws.getD i none
    if fh ≠ "" ∧ fh ≠ "unknown" then
      let meta := (alookup s.model.face_meta i).getD FaceRecord.empty
      if !meta.isEmpty then
        ({ s with store := save_face_meta s.store fh meta raw }, cnt + 1)
      else (s, cnt)
    else (s, cnt)
  else (s, cnt)

/-- Body of the `set_color` loop for one item (`app.py` lines 141–171).
An absent `face_id`/`color`, an out-of-range index, or a malformed colour
(exception from `hex_to_quantity`) skips the item. -/
def applyColorItem (acc : SysState × Nat) (it : ColorItem) : SysState × Nat :=
  let (s, cnt) := acc
  match it.face_id, it.color with
  | none, _ => (s, cnt)
  | _, none => (s, cnt)
  | some fid, some hex =>
    if fid < 0 ∨ (s.model.face_shapes.length : Int) ≤ fid then (s, cnt)
    else
      match hex_to_quantity hex with
      | none => (s, cnt)
      | some _ =>
        let i := fid.toNat
        let m1 := aupdate FaceRecord.empty (fun r => { r with color := some hex })
          s.model.face_meta i
        let s1 := { s with model := { s.model with face_meta := m1 } }
        persistFace s1 cnt i

/-- Pop one attribute and delete the record if it became empty
(`set_thread` lines 229–232, `set_tolerance` lines 429–431). -/
def popAttr (m : MetaMap) (i : Nat) (pop : FaceRecord → FaceRecord) : MetaMap :=
  match alookup m i with
  | none => m
  | some r =>
    let r' := pop r
    if r'.isEmpty then aerase m i
    else aupdate FaceRecord.empty (fun _ => r') m i

/-- Body of the `set_thread` loop for one item (`app.py` lines 214–242). -/
def applyThreadItem (acc : SysState × Nat) (it : ThreadItem) : SysState × Nat :=
  let (s, cnt) := acc
  match it.face_id with
  | none => (s, cnt)
  | some fid =>
    if fid < 0 ∨ (s.model.face_shapes.length : Int) ≤ fid then (s, cnt)
    else
      let i := fid.toNat
      let m1 :=
        match it.thread with
        | some t => aupdate FaceRecord.empty (fun r => { r with thread := some t })
            s.model.face_meta i
        | none => popAttr s.model.face_meta i (fun r => { r with thread := none })
      let s1 := { s with model := { s.model with face_meta := m1 } }
      persistFace s1 cnt i

/-- Body of the `set_tolerance` loop for one item (`app.py` lines 415–440). -/
def applyTolItem (acc : SysState × Nat) (it : TolItem) : SysState × Nat :=
  let (s, cnt) := acc
  match it.face_id with
  | none => (s, cnt)
  | some fid =>
    if fid < 0 ∨ (s.model.face_shapes.length : Int) ≤ fid then (s, cnt)
    else
      let i := fid.toNat
      let m1 :=
        match it.tolerance with
        | some t => aupdate FaceRecord.empty
            (fun r => { r with tolerance := some t }) s.model.face_meta i
        | none => popAttr s.model.face_meta i (fun r => { r with tolerance := none })
      let s1 := { s with model := { s.model with face_meta := m1 } }
      persistFace s1 cnt i

/-- Route `/set_color` (`app.py` lines 127–173), batch form. -/
def set_color (s : SysState) (updates : List ColorItem) : OpResult × SysState :=
  if s.model.doc = none then (errOut 400 "No model loaded", s)
  else
    let (s', cnt) := updates.foldl applyColorItem (s, 0)
    ({ ok := true, status := 200, db_updated_count := cnt }, s')

/-- Route `/set_thread` (`app.py` lines 200–244), batch form. -/
def set_thread (s : SysState) (updates : List ThreadItem) : OpResult × SysState :=
  if s.model.doc = none then (errOut 400 "No model loaded", s)
  else
    let (s', cnt) := updates.foldl applyThreadItem (s, 0)
    ({ ok := true, status := 200, db_updated_count := cnt }, s')

/-- Route `/set_tolerance` (`app.py` lines 402–442), batch form. -/
def set_tolerance (s : SysState) (updates : List TolItem) : OpResult × SysState :=
  if s.model.doc = none then (errOut 400 "No model loaded", s)
  else
    let (s', cnt) := updates.foldl applyTolItem (s, 0)
    ({ ok := true, status := 200, db_updated_count := cnt }, s')

/-! ### Character-level model of the three stripping substitutions

`admin_clear_metadata` (`app.py` lines 580–596) performs three `re.sub`
calls.  `re.sub` scans positions left to right, attempting a match at each
position; on a match it emits the replacement and resumes after the match.
Each scanner below is written with a fuel argument (the input length is
always sufficient fuel) purely to make the recursion structural. -/

/-- Split at the first occurrence of `term`: returns the characters before
the occurrence and the characters after it.  This is the semantics of a
non-greedy `.*?` (with `re.DOTALL`) followed by the literal `term`. -/
def splitTerm (term : List Char) : List Char → Option (List Char × List Char)
  | [] => none
  | c :: cs =>
    if term.isPrefixOf (c :: cs) then some ([], (c :: cs).drop term.length)
    else (splitTerm term cs).map (fun pr => (c :: pr.1, pr.2))

/-- Strategy-2 stripper, regex `\[SVFM:.*?\]` with `re.DOTALL`, replaced by
the empty string (`app.py` line 581). -/
def stripSVFMF : Nat → List Char → List Char
  | 0, s => s
  | _ + 1, [] => []
  | n + 1, c :: cs =>
    if pSVFM.isPrefixOf (c :: cs) then
      match splitTerm pRB ((c :: cs).drop pSVFM.length) with
      | some (_, rest) => stripSVFMF n rest
      | none => c :: stripSVFMF n cs
    else c :: stripSVFMF n cs

/-- Strategy-2 stripper at full fuel. -/
def stripSVFM (s : List Char) : List Char := stripSVFMF s.length s

/-- Strategy-3 stripper, regex
`/\* __STEPVIEWER_META_START__ .*? __STEPVIEWER_META_END__ \*/` with
`re.DOTALL`, replaced by the empty string (`app.py` lines 584–587). -/
def stripCommentF : Nat → List Char → List Char
  | 0, s => s
  | _ + 1, [] => []
  | n + 1, c :: cs =>
    if pComStart.isPrefixOf (c :: cs) then
      match splitTerm pComEnd ((c :: cs).drop pComStart.length) with
      | some (_, rest) => stripCommentF n rest
      | none => c :: stripCommentF n cs
    else c :: stripCommentF n cs

/-- Strategy-3 stripper at full fuel. -/
def stripComment (s : List Char) : List Char := stripCommentF s.length s

/-- Attempt the strategy-1 entity pattern at the head of `s`
(`app.py` lines 591–595):
`(DESCRIPTIVE_REPRESENTATION_ITEM\s*\(\s*'(?:SVFM|StepViewerFaceMetadata)'\s*,\s*')[^']*('\s*\))`.
On success returns `(replacement, payload, rest)` where `replacement` is
group 1 followed by group 2 (the `re.sub` substitution `\1\2`, i.e. the
entity with the payload blanked), `payload` is the `[^']*` span and `rest`
is the input after the match.  The two tag alternatives cannot both be
prefixes of the same text, so first-alternative preference coincides with
this test order. -/
def matchEntity (s : List Char) : Option (List Char × List Char × List Char) :=
  if pDRI.isPrefixOf s then
    let s1 := s.drop pDRI.length
    let w1 := s1.takeWhile isWS
    match s1.dropWhile isWS with
    | '(' :: s3 =>
      let w2 := s3.takeWhile isWS
      match s3.dropWhile isWS with
      | q1 :: s5 =>
        if q1 = qc then
          let tagRest : Option (List Char × List Char) :=
            if (tagSVFM ++ [qc]).isPrefixOf s5 then
              some (tagSVFM, s5.drop (tagSVFM.length + 1))
            else if (tagLong ++ [qc]).isPrefixOf s5 then
              some (tagLong, s5.drop (tagLong.length + 1))
            else none
          match tagRest with
          | some (tag, s6) =>
            let w3 := s6.takeWhile isWS
            match s6.dropWhile isWS with
            | ',' :: s8 =>
              let w4 := s8.takeWhile isWS
              match s8.dropWhile isWS with
              | q2 :: s10 =>
                if q2 = qc then
                  let pay := s10.takeWhile (fun c => c != qc)
                  match s10.dropWhile (fun c => c != qc) with
                  | q3 :: s12 =>
                    if q3 = qc then
                      let w5 := s12.takeWhile isWS
                      match s12.dropWhile isWS with
                      | ')' :: s14 =>
                        some (pDRI ++ w1 ++ '(' :: w2 ++ qc :: tag ++ qc :: w3 ++
                          ',' :: w4 ++ qc :: qc :: w5 ++ [')'], pay, s14)
                      | _ => none
                    else none
                  | _ => none
                else none
              | _ => none
            | _ => none
          | none => none
        else none
      | _ => none
    | _ => none
  else none

/-- Strategy-1 stripper, `re.sub` with the entity pattern and replacement
`\1\2` (`app.py` line 596): the payload field is blanked, the entity kept. -/
def blankEntityF : Nat → List Char → List Char
  | 0, s => s
  | _ + 1, [] => []
  | n + 1, c :: cs =>
    match matchEntity (c :: cs) with
    | some (rep, _, rest) => rep ++ blankEntityF n rest
    | none => c :: blankEntityF n cs

/-- Strategy-1 stripper at full fuel. -/
def blankEntity (s : List Char) : List Char := blankEntityF s.length s

/-- The purge workflow's file-stripping step, in the order the code applies
the substitutions: strategy 2, then strategy 3, then strategy 1. -/
def stripFileMeta (s : List Char) : List Char :=
  blankEntity (stripComment (stripSVFM s))

/-! ### Metadata codec

Modelled from the spec: `core.metadata` (the Metadata Codec and the STEP
Annotation Engine) is not under `src/`.  Spec §4.2: the payload is a
self-delimiting, text-safe representation with "no characters that collide
with the structural punctuation of the host text format", embeddable as a
single quoted string literal.  The model encodes every string field in
lowercase hexadecimal and joins fields with `;`. -/

/-- The sixteen hexadecimal digit characters. -/
def hexChars : List Char := "0123456789abcdef".toList

/-- Hex digit for `n % 16`. -/
def hexDigit (n : Nat) : Char := hexChars.getD (n % 16) '0'

/-- Hex-encode one character (low byte; payload text is ASCII). -/
def encChar (c : Char) : List Char :=
  [hexDigit ((c.toNat / 16) % 16), hexDigit (c.toNat % 16)]

/-- Hex-encode a string field. -/
def encStr (s : String) : List Char := (s.toList.map encChar).flatten

/-- Join payload fields with `;`. -/
def joinSemi : List (List Char) → List Char
  | [] => []
  | [f] => f
  | f :: fs => f ++ ';' :: joinSemi fs

/-- Modelled from the spec: `encode(record) -> payload` (spec §4.2).  Ten
fields: colour presence+hex, thread presence, four thread fields, tolerance
presence, three tolerance fields. -/
def encodePayload (r : FaceRecord) : List Char :=
  joinSemi
    [ (match r.color with | none => ['0'] | some s => '1' :: encStr s)
    , (match r.thread with | none => ['0'] | some _ => ['1'])
    , (match r.thread with | none => [] | some t => encStr t.ttype)
    , (match r.thread with | none => [] | some t => encStr t.size)
    , (match r.thread with | none => [] | some t => encStr t.pitch)
    , (match r.thread with | none => [] | some t => encStr t.tclass)
    , (match r.tolerance with | none => ['0'] | some _ => ['1'])
    , (match r.tolerance with | none => [] | some t => encStr t.ttype)
    , (match r.tolerance with | none => [] | some t => encStr t.value)
    , (match r.tolerance with | none => [] | some t => encStr t.datum) ]

/-- Split a payload at `;` separators. -/
def splitSemi : List Char → List (List Char)
  | [] => [[]]
  | c :: cs =>
    let r := splitSemi cs
    if c = ';' then [] :: r
    else
      match r with
      | [] => [[c]]
      | h :: t => (c :: h) :: t

/-- Value of a hex digit character, `none` for a non-digit. -/
def hexVal (c : Char) : Option Nat :=
  if c ∈ hexChars then some (hexChars.indexOf c) else none

/-- Decode a hex-encoded string field; `none` on malformed input. -/
def decStr : List Char → Option (List Char)
  | [] => some []
  | [_] => none
  | a :: b :: rest =>
    match hexVal a, hexVal b, decStr rest with
    | some x, some y, some r => some (Char.ofNat (16 * x + y) :: r)
    | _, _, _ => none

/-- Decode one optional string field from presence marker + hex. -/
def decOptStr : List Char → Option (Option String)
  | ['0'] => some none
  | '1' :: rest => (decStr rest).map (fun l => some (String.mk l))
  | _ => none

/-- Modelled from the spec: `decode(payload) -> record` (spec §4.2); decode
of malformed input is a `CorruptPayload` the callers treat as "no metadata",
so malformed input yields the empty record. -/
def decodePayload (p : List Char) : FaceRecord :=
  match splitSemi p with
  | [fc, ftp, ft1, ft2, ft3, ft4, fop, fo1, fo2, fo3] =>
    let color := (decOptStr fc).getD none
    let thread : Option ThreadSpec :=
      if ftp = ['1'] then
        match decStr ft1, decStr ft2, decStr ft3, decStr ft4 with
        | some a, some b, some c, some d =>
          some ⟨String.mk a, String.mk b, String.mk c, String.mk d⟩
        | _, _, _, _ => none
      else none
    let tol : Option TolSpec :=
      if fop = ['1'] then
        match decStr fo1, decStr fo2, decStr fo3 with
        | some a, some b, some c => some ⟨String.mk a, String.mk b, String.mk c⟩
        | _, _, _ => none
      else none
    { color := color, thread := thread, tolerance := tol }
  | _ => FaceRecord.empty

/-! ### STEP Annotation Engine: embed / extract

Modelled from the spec: `core.metadata.inject_meta_into_step` and
`core.metadata.extract_meta_from_step` are not under `src/`.  Spec §4.3
describes the three simultaneously-written strategies and the extraction
contract (scan all three, merge with entity-field precedence). -/

/-- Strategy-1 text: the descriptive entity with quoted tag and payload. -/
def entityText (tag pay : List Char) : List Char :=
  pDRI ++ '(' :: qc :: tag ++ qc :: ',' :: qc :: pay ++ qc :: [')']

/-- Strategy-2 text: the bracketed description tag. -/
def tagText (pay : List Char) : List Char := pSVFM ++ pay ++ pRB

/-- Strategy-3 text: the sentinel-delimited comment block. -/
def commentText (pay : List Char) : List Char := pComStart ++ pay ++ pComEnd

/-- Modelled from the spec: embedding a record into a host file via all
three strategies (spec §4.3).  `pre`, `mid1`, `mid2`, `post` are the
surrounding pieces of the host STEP text. -/
def inject_meta_into_step (r : FaceRecord)
    (pre mid1 mid2 post : List Char) : List Char :=
  pre ++ entityText tagSVFM (encodePayload r) ++ mid1 ++
    tagText (encodePayload r) ++ mid2 ++
    commentText (encodePayload r) ++ post

/-- First strategy-1 payload in the text, by left-to-right scan. -/
def findEntityPayloadF : Nat → List Char → Option (List Char)
  | 0, _ => none
  | _ + 1, [] => none
  | n + 1, c :: cs =>
    match matchEntity (c :: cs) with
    | some (_, pay, _) => some pay
    | none => findEntityPayloadF n cs

/-- First strategy-2 payload in the text. -/
def findTagPayloadF : Nat → List Char → Option (List Char)
  | 0, _ => none
  | _ + 1, [] => none
  | n + 1, c :: cs =>
    if pSVFM.isPrefixOf (c :: cs) then
      match splitTerm pRB ((c :: cs).drop pSVFM.length) with
      | some (pay, _) => some pay
      | none => findTagPayloadF n cs
    else findTagPayloadF n cs

/-- First strategy-3 payload in the text. -/
def findCommentPayloadF : Nat → List Char → Option (List Char)
  | 0, _ => none
  | _ + 1, [] => none
  | n + 1, c :: cs =>
    if pComStart.isPrefixOf (c :: cs) then
      match splitTerm pComEnd ((c :: cs).drop pComStart.length) with
      | some (pay, _) => some pay
      | none => findCommentPayloadF n cs
    else findCommentPayloadF n cs

/-- Merge two records, the second taking precedence field by field. -/
def mergeRec (base over : FaceRecord) : FaceRecord :=
  { color := match over.color with | some c => some c | none => base.color
  , thread := match over.thread with | some t => some t | none => base.thread
  , tolerance := match over.tolerance with | some t => some t | none => base.tolerance }

/-- Decode an optionally found payload; nothing found means no metadata. -/
def decodeFound : Option (List Char) → FaceRecord
  | none => FaceRecord.empty
  | some p => decodePayload p

/-- Modelled from the spec: `extract(file_text) -> record | empty`
(spec §4.3): scan for all three strategies and merge the results, the
entity-field strategy taking precedence, tolerant of any subset being
absent. -/
def extract_meta_from_step (t : List Char) : FaceRecord :=
  let fromComment := decodeFound (findCommentPayloadF t.length t)
  let fromTag := decodeFound (findTagPayloadF t.length t)
  let fromEntity := decodeFound (findEntityPayloadF t.length t)
  mergeRec (mergeRec fromComment fromTag) fromEntity

/-! ### `admin_clear_metadata` (`app.py` lines 511–622) -/

/-- Response of the admin purge route. -/
structure AdminOut where
  ok : Bool
  status : Nat
  deleted_count : Nat := 0
  residue_warning : Bool := false
  message : List String := []
  errorMsg : Option String := none
deriving DecidableEq, Repr

/-- Error response helper for the admin route. -/
def adminErr (code : Nat) (msg : String) : AdminOut :=
  { ok := false, status := code, errorMsg := some msg }

/-- Ensure-loaded step (`app.py` lines 532–543): when the requested uuid is
not the current one, reset the session, set the uuid, and load the file;
a missing file yields 404 and a loader failure 500, in both cases with the
session left reset-with-uuid exactly as the code leaves it. -/
def ensureLoaded (loader : List Char → Option LoadData) (st : SysState)
    (uuid : String) : Except (AdminOut × SysState) SysState :=
  if st.model.model_uuid = some uuid then .ok st
  else
    let m1 := { DocModel.reset with model_uuid := some uuid }
    let st1 := { st with model := m1 }
    match alookup st.files uuid with
    | none => .error (adminErr 404 "Model not found on server", st1)
    | some content =>
      match loader content with
      | none => .error (adminErr 500 "Failed to load model", st1)
      | some d => .ok { st1 with model := populate m1 d }

/-- The list comprehension of `app.py` line 556: this document's known,
non-`"unknown"` fingerprints. -/
def hashes_to_delete (m : DocModel) : List String :=
  m.face_hashes.filter (fun h => h ≠ "" ∧ h ≠ "unknown")

/-- Database-cleanup step (`app.py` lines 549–559): `scope="all"` wipes the
whole store (`clear_database`, modelled from spec §4.4 `clear_all`);
`scope="db"` deletes this document's known fingerprints and reports their
count; any other scope does nothing. -/
def dbStage (st : SysState) (scope : String) : SysState × Nat × List String :=
  if scope = "db" ∨ scope = "all" then
    if scope = "all" then
      ({ st with store := [] }, 0, ["Deleted ALL DB entries (global wipe)"])
    else
      ({ st with store := delete_faces st.store (hashes_to_delete st.model) },
        (hashes_to_delete st.model).length, ["Deleted DB entries"])
  else (st, 0, [])

/-- File-cleanup step (`app.py` lines 562–609): for `scope ∈ {file, all}`
read the file (404 when absent), apply the three stripping substitutions,
write the result back, and re-run extraction to verify; residue is reported
(as a warning flag here, a log line in the code), never a failure.  The
pre-strip extraction at lines 572–574 only feeds a log line and is not
modelled. -/
def fileStage (st : SysState) (uuid : String) (scope : String) :
    Except (AdminOut × SysState) (SysState × Bool × List String) :=
  if scope = "file" ∨ scope = "all" then
    match alookup st.files uuid with
    | none => .error (adminErr 404 "STEP file not found on server", st)
    | some content =>
      let stripped := stripFileMeta content
      let after := extract_meta_from_step stripped
      .ok ({ st with files := aupdate [] (fun _ => stripped) st.files uuid },
        !after.isEmpty, ["Stripped STEP file"])
  else .ok (st, false, [])

/-- Route `/api/admin/clear_metadata` (`app.py` lines 511–622).  `scopeArg`
is the raw request value; a missing scope defaults to `"all"` (line 526).
The in-memory metadata map is cleared unconditionally after the database and
file steps, and only then does the route return success. -/
def admin_clear_metadata (loader : List Char → Option LoadData)
    (st : SysState) (uuidArg : Option String) (scopeArg : Option String) :
    AdminOut × SysState :=
  let scope := scopeArg.getD "all"
  match uuidArg with
  | none => (adminErr 400 "UUID required", st)
  | some uuid =>
    if uuid = "" then (adminErr 400 "UUID required", st)
    else
      match ensureLoaded loader st uuid with
      | .error es => es
      | .ok st1 =>
        let (st2, delCount, msg1) := dbStage st1 scope
        match fileStage st2 uuid scope with
        | .error es => es
        | .ok (st3, residue, msg2) =>
          ({ ok := true, status := 200, deleted_count := delCount,
             residue_warning := residue,
             message := msg1 ++ msg2 ++ ["Cleared in-memory metadata"] },
           { st3 with model := { st3.model with face_meta := [] } })

/-! ### `upload` and `get_model` (`app.py` lines 73–124) -/

/-- The uploaded file of a multipart request: filename and content. -/
structure UploadReq where
  filename : String
  content : List Char
deriving DecidableEq

/-- Lowercased extension of a filename (`os.path.splitext(...)[1].lower()`):
the suffix from the last dot, empty when the name has no dot. -/
def extLower (s : String) : List Char :=
  let cs := s.toList
  if cs.contains '.' then
    '.' :: ((cs.reverse.takeWhile (fun c => c != '.')).reverse.map Char.toLower)
  else []

/-- Filename stem (`os.path.splitext(...)[0]`). -/
def stemOf (s : String) : String :=
  let cs := s.toList
  if cs.contains '.' then
    String.mk ((cs.reverse.dropWhile (fun c => c != '.')).drop 1).reverse
  else s

/-- Route `/upload` (`app.py` lines 73–103).  `freshName` stands for the
generated `uuid4().hex` stem.  On loader failure the session is reset and
the saved file removed (lines 96–100). -/
def upload (loader : List Char → Option LoadData) (freshName : String)
    (st : SysState) (req : Option UploadReq) : OpResult × SysState :=
  match req with
  | none => (errOut 400 "No file part", st)
  | some r =>
    if r.filename = "" then (errOut 400 "No selected file", st)
    else if extLower r.filename ≠ ".step".toList ∧
        extLower r.filename ≠ ".stp".toList then
      (errOut 400 "Only .step / .stp files are supported", st)
    else
      let files1 := aupdate [] (fun _ => r.content) st.files freshName
      let m1 := { st.model with
        original_filename := some (stemOf r.filename)
        model_uuid := some freshName }
      match loader r.content with
      | none =>
        ({ ok := false, status := 500, errorMsg := some "load failed" },
         { st with model := DocModel.reset, files := aerase files1 freshName })
      | some d =>
        ({ ok := true, status := 200 },
         { st with model := populate m1 d, files := files1 })

/-- Route `/api/model/<uuid_str>` (`app.py` lines 110–124): look the file up
(404 when absent), reset the session, set the uuid, and load.  The failure
branch returns a structured 500 error; the session keeps only the reset
state with the uuid set, the loader being all-or-nothing (spec §6). -/
def get_model (loader : List Char → Option LoadData) (st : SysState)
    (uuid : String) : OpResult × SysState :=
  match alookup st.files uuid with
  | none => (errOut 404 "Model not found", st)
  | some content =>
    let m1 := { DocModel.reset with model_uuid := some uuid }
    let st1 := { st with model := m1 }
    match loader content with
    | none => (errOut 500 "load failed", st1)
    | some d => ({ ok := true, status := 200 }, { st1 with model := populate m1 d })

/-! ### `export_step` (`app.py` lines 176–197) -/

/-- Modelled from the spec: `core.exporter.export_step_xcaf` is not under
`src/`.  Spec §4.5: export "hands the current metadata map to the STEP
Annotation Engine to embed into a freshly written interchange file; does not
mutate the Fingerprint Store".  The engine is abstracted as a function that
may rewrite the uploads folder and produce the outgoing bytes, or fail
(`none` = raises). -/
def export_step (exporter : DocModel → Files → Option (Files × List Char))
    (st : SysState) : OpResult × SysState :=
  if st.model.doc = none then (errOut 400 "No model loaded", st)
  else
    match exporter st.model st.files with
    | none => (errOut 500 "export failed", st)
    | some (files2, _) => ({ ok := true, status := 200 }, { st with files := files2 })

/-! ### `get_holes` (`app.py` lines 364–400) -/

/-- Round to four decimal places, the `round(r * 2, 4)` of
`get_cylinder_info` (ties are immaterial to the claims; rationals stand in
for the floats). -/
def round4 (x : ℚ) : ℚ := (round (x * 10000) : ℚ) / 10000

/-- `get_cylinder_info` (`app.py` lines 375–381): the rounded diameter of a
cylindrical face, `none` otherwise. -/
def get_cylinder_info : Surf → Option ℚ
  | .cyl r => some (round4 (r * 2))
  | .noncyl => none

/-- `grouped.setdefault(d, []).append(i)`: append the index to the group of
this diameter, creating the group at the end on first occurrence. -/
def addGroup : List (ℚ × List Nat) → ℚ → Nat → List (ℚ × List Nat)
  | [], d, i => [(d, [i])]
  | (k, v) :: r, d, i =>
    if k = d then (k, v ++ [i]) :: r else (k, v) :: addGroup r d i

/-- One step of the grouping loop of `get_holes` (lines 385–389): group a
cylindrical face's index under its diameter, skip other faces. -/
def groupStep (m : List (ℚ × List Nat)) (p : Nat × Surf) : List (ℚ × List Nat) :=
  match get_cylinder_info p.2 with
  | some d => addGroup m d p.1
  | none => m

/-- The grouping loop of `get_holes` (lines 385–389) over enumerated faces. -/
def groupHoles (faces : List Surf) : List (ℚ × List Nat) :=
  faces.enum.foldl groupStep []

/-- One group of the `get_holes` response. -/
structure HoleGroup where
  diameter : ℚ
  ids : List Nat
  count : Nat
deriving DecidableEq, Repr

/-- Route `/get_holes` (`app.py` lines 364–400): group cylindrical faces by
rounded diameter, attach counts, sort ascending by diameter (`result.sort`).
`none` models the 400 "No model loaded" error. -/
def get_holes (st : SysState) : Option (List HoleGroup) :=
  if st.model.doc = none then none
  else
    some (((groupHoles st.model.face_shapes).insertionSort
        (fun a b => a.1 ≤ b.1)).map
      (fun p => { diameter := p.1, ids := p.2, count := p.2.length }))

/-- Lookup in the diameter-grouping accumulator of `get_holes`, returning
the empty group for an absent key. -/
def lookupG : List (ℚ × List Nat) → ℚ → List Nat
  | [], _ => []
  | (k, v) :: r, d => if k = d then v else lookupG r d

/-- A pattern with no nonempty proper border: no proper nonempty prefix of
it is also a suffix.  For such a pattern an occurrence cannot straddle the
boundary between a match-free region and an explicit occurrence. -/
def noBorder (pat : List Char) : Prop :=
  ∀ j < pat.length, 0 < j → pat.drop j ≠ pat.take (pat.length - j)

instance (pat : List Char) : Decidable (noBorder pat) := by
  unfold noBorder
  exact Nat.decidableBallLT _ _

/-- The general shape matched by the strategy-1 regex: the entity keyword,
optional whitespace runs `w1`–`w5` at the `\s*` positions, one of the two
tags, and a quote-free payload.  `entityText tag pay` is the all-empty-
whitespace instance. -/
def entityGen (tag pay w1 w2 w3 w4 w5 : List Char) : List Char :=
  pDRI ++ w1 ++ '(' :: w2 ++ qc :: tag ++ qc :: w3 ++ ',' :: w4 ++
    qc :: pay ++ qc :: w5 ++ [')']

/-- The alphabet of encoded payloads: hexadecimal digits and the field
separator.  Spec §4.2 requires the payload to avoid "characters that collide
with the structural punctuation of the host text format"; every character
the three embedding patterns rely on (quote, brackets, slash, space,
parentheses, the entity keyword's letters) lies outside this set. -/
def safeChars : List Char := ';' :: hexChars

/-- A face index whose fingerprint is absent (index outside the hash list),
falsy (empty string) or the literal `"unknown"` — the cases `app.py` never
persists. -/
def unknownFingerprint (hs : List String) (i : Nat) : Prop :=
  hs.length ≤ i ∨ hs.getD i "" = "" ∨ hs.getD i "" = "unknown"

instance (hs : List String) (i : Nat) : Decidable (unknownFingerprint hs i) := by
  unfold unknownFingerprint; infer_instance

/-- Counterexample input for C3: one face with fingerprint `"h1"`, whose
record holds only a thread attribute, already persisted to the store. -/
def c3State : SysState :=
  { model := { doc := some (), face_shapes := [Surf.noncyl],
               face_labels := [true], face_hashes := ["h1"],
               face_raws := [none],
               face_meta := [(0, { thread := some ⟨"M", "M6", "1.0", "6H"⟩ })] },
    store := [("h1", ⟨{ thread := some ⟨"M", "M6", "1.0", "6H"⟩ }, none⟩)],
    files := [] }

/-! ## Lemmas and claim theorems -/

/-! ### Association-list basics -/

theorem alookup_none_of_not_mem {α β : Type} [DecidableEq α]
    {m : List (α × β)} {k : α} (h : k ∉ m.map Prod.fst) :
    alookup m k = none := by
  induction m with
  | nil => rfl
  | cons p r ih =>
    obtain ⟨a, b⟩ := p
    simp only [List.map_cons, List.mem_cons, not_or] at h
    rw [alookup, if_neg (fun e => h.1 e.symm)]
    exact ih h.2

theorem alookup_aerase_self {α β : Type} [DecidableEq α]
    (m : List (α × β)) (k : α) (h : (m.map Prod.fst).Nodup) :
    alookup (aerase m k) k = none := by
  induction m with
  | nil => rfl
  | cons p r ih =>
    obtain ⟨a, b⟩ := p
    simp only [List.map_cons, List.nodup_cons] at h
    by_cases e : a = k
    · rw [aerase, if_pos e]
      exact alookup_none_of_not_mem (e ▸ h.1)
    · rw [aerase, if_neg e, alookup, if_neg e]
      exact ih h.2

/-! ### The persistence guard (claim C5's core) -/

theorem persistFace_skip (s : SysState) (cnt i : Nat)
    (h : unknownFingerprint s.model.face_hashes i) :
    persistFace s cnt i = (s, cnt) := by
  unfold persistFace
  unfold unknownFingerprint at h
  dsimp only
  split_ifs with h1 h2 h3 <;> try rfl
  exfalso
  rcases h with h | h | h
  · exact absurd h1 (Nat.not_lt.2 h)
  · exact h2.1 h
  · exact h2.2 h

theorem applyColorItem_skip_store (s : SysState) (cnt : Nat) (it : ColorItem)
    (h : ∀ fid, it.face_id = some fid →
      unknownFingerprint s.model.face_hashes fid.toNat) :
    (applyColorItem (s, cnt) it).1.store = s.store ∧
      (applyColorItem (s, cnt) it).2 = cnt := by
  obtain ⟨ofid, ocol⟩ := it
  unfold applyColorItem
  cases ofid with
  | none => cases ocol <;> exact ⟨rfl, rfl⟩
  | some fid =>
    cases ocol with
    | none => exact ⟨rfl, rfl⟩
    | some hex =>
      simp only
      split
      · exact ⟨rfl, rfl⟩
      · cases hq : hex_to_quantity hex with
        | none => exact ⟨rfl, rfl⟩
        | some u =>
          simp only
          rw [persistFace_skip]
          exact ⟨rfl, rfl⟩
          exact h fid rfl

theorem applyThreadItem_skip_store (s : SysState) (cnt : Nat) (it : ThreadItem)
    (h : ∀ fid, it.face_id = some fid →
      unknownFingerprint s.model.face_hashes fid.toNat) :
    (applyThreadItem (s, cnt) it).1.store = s.store ∧
      (applyThreadItem (s, cnt) it).2 = cnt := by
  obtain ⟨ofid, oth⟩ := it
  unfold applyThreadItem
  cases ofid with
  | none => exact ⟨rfl, rfl⟩
  | some fid =>
    simp only
    split
    · exact ⟨rfl, rfl⟩
    · rw [persistFace_skip]
      exact ⟨rfl, rfl⟩
      exact h fid rfl

theorem applyTolItem_skip_store (s : SysState) (cnt : Nat) (it : TolItem)
    (h : ∀ fid, it.face_id = some fid →
      unknownFingerprint s.model.face_hashes fid.toNat) :
    (applyTolItem (s, cnt) it).1.store = s.store ∧
      (applyTolItem (s, cnt) it).2 = cnt := by
  obtain ⟨ofid, otl⟩ := it
  unfold applyTolItem
  cases ofid with
  | none => exact ⟨rfl, rfl⟩
  | some fid =>
    simp only
    split
    · exact ⟨rfl, rfl⟩
    · rw [persistFace_skip]
      exact ⟨rfl, rfl⟩
      exact h fid rfl

/-- C5.  For every metadata mutation (`set_color`, `set_thread`,
`set_tolerance`) on a face whose fingerprint is absent, empty, or equal to
`"unknown"`, nothing is written to the fingerprint store for that face and
`db_updated_count` is not incremented: processing such an item leaves the
store and the running counter exactly as they were. -/
theorem unknown_fingerprints_never_persisted :
    (∀ (s : SysState) (cnt : Nat) (it : ColorItem),
      (∀ fid, it.face_id = some fid →
        unknownFingerprint s.model.face_hashes fid.toNat) →
      (applyColorItem (s, cnt) it).1.store = s.store ∧
        (applyColorItem (s, cnt) it).2 = cnt) ∧
    (∀ (s : SysState) (cnt : Nat) (it : ThreadItem),
      (∀ fid, it.face_id = some fid →
        unknownFingerprint s.model.face_hashes fid.toNat) →
      (applyThreadItem (s, cnt) it).1.store = s.store ∧
        (applyThreadItem (s, cnt) it).2 = cnt) ∧
    (∀ (s : SysState) (cnt : Nat) (it : TolItem),
      (∀ fid, it.face_id = some fid →
        unknownFingerprint s.model.face_hashes fid.toNat) →
      (applyTolItem (s, cnt) it).1.store = s.store ∧
        (applyTolItem (s, cnt) it).2 = cnt) :=
  ⟨applyColorItem_skip_store, applyThreadItem_skip_store, applyTolItem_skip_store⟩

/-- Witness for C5: a face whose fingerprint is literally `"unknown"` is not
persisted by a thread edit. -/
theorem unknown_fingerprints_never_persisted_witness :
    (applyThreadItem
      ({ model := { doc := some (), face_shapes := [Surf.noncyl],
                    face_labels := [true], face_hashes := ["unknown"],
                    face_raws := [none], face_meta := [] },
         store := [], files := [] }, 0)
      { face_id := some 0, thread := some ⟨"M", "M6", "1.0", "6H"⟩ }).1.store
        = [] ∧
    (applyThreadItem
      ({ model := { doc := some (), face_shapes := [Surf.noncyl],
                    face_labels := [true], face_hashes := ["unknown"],
                    face_raws := [none], face_meta := [] },
         store := [], files := [] }, 0)
      { face_id := some 0, thread := some ⟨"M", "M6", "1.0", "6H"⟩ }).2 = 0 :=
  unknown_fingerprints_never_persisted.2.1 _ 0 _
    (by intro fid h; cases h; decide)

/-! ### C4: batch items with invalid indices are skipped, the rest applied -/

theorem persistFace_model (s : SysState) (cnt i : Nat) :
    (persistFace s cnt i).1.model = s.model := by
  unfold persistFace
  dsimp only
  split_ifs <;> rfl

theorem persistFace_empty (s : SysState) (cnt i : Nat)
    (h : ((alookup s.model.face_meta i).getD FaceRecord.empty).isEmpty = true) :
    persistFace s cnt i = (s, cnt) := by
  unfold persistFace
  dsimp only
  split_ifs with h1 h2 h3 <;> try rfl
  rw [h] at h3
  exact absurd h3 (by decide)

theorem applyThreadItem_skip (s : SysState) (cnt : Nat) (it : ThreadItem)
    (h : ∀ fid, it.face_id = some fid →
      fid < 0 ∨ (s.model.face_shapes.length : Int) ≤ fid) :
    applyThreadItem (s, cnt) it = (s, cnt) := by
  obtain ⟨ofid, oth⟩ := it
  unfold applyThreadItem
  cases ofid with
  | none => rfl
  | some fid =>
    simp only
    rw [if_pos (h fid rfl)]

theorem applyColorItem_skip (s : SysState) (cnt : Nat) (it : ColorItem)
    (h : ∀ fid, it.face_id = some fid →
      fid < 0 ∨ (s.model.face_shapes.length : Int) ≤ fid) :
    applyColorItem (s, cnt) it = (s, cnt) := by
  obtain ⟨ofid, ocol⟩ := it
  unfold applyColorItem
  cases ofid with
  | none => cases ocol <;> rfl
  | some fid =>
    cases ocol with
    | none => rfl
    | some hex =>
      simp only
      rw [if_pos (h fid rfl)]

theorem applyTolItem_skip (s : SysState) (cnt : Nat) (it : TolItem)
    (h : ∀ fid, it.face_id = some fid →
      fid < 0 ∨ (s.model.face_shapes.length : Int) ≤ fid) :
    applyTolItem (s, cnt) it = (s, cnt) := by
  obtain ⟨ofid, otl⟩ := it
  unfold applyTolItem
  cases ofid with
  | none => rfl
  | some fid =>
    simp only
    rw [if_pos (h fid rfl)]

theorem applyThreadItem_valid (s : SysState) (cnt : Nat) (fid : Int)
    (t : ThreadSpec) (h0 : ¬(fid < 0 ∨ (s.model.face_shapes.length : Int) ≤ fid)) :
    (applyThreadItem (s, cnt) ⟨some fid, some t⟩).1.model.face_meta =
      aupdate FaceRecord.empty (fun r => { r with thread := some t })
        s.model.face_meta fid.toNat := by
  unfold applyThreadItem
  simp only
  rw [if_neg h0]
  exact congrArg DocModel.face_meta (persistFace_model _ cnt _)

theorem applyTolItem_valid (s : SysState) (cnt : Nat) (fid : Int)
    (t : TolSpec) (h0 : ¬(fid < 0 ∨ (s.model.face_shapes.length : Int) ≤ fid)) :
    (applyTolItem (s, cnt) ⟨some fid, some t⟩).1.model.face_meta =
      aupdate FaceRecord.empty (fun r => { r with tolerance := some t })
        s.model.face_meta fid.toNat := by
  unfold applyTolItem
  simp only
  rw [if_neg h0]
  exact congrArg DocModel.face_meta (persistFace_model _ cnt _)

/-- C4.  Batch updates tolerate bad items: an item with a missing or
out-of-range face index is skipped without affecting the accumulated state
(so the batch continues and the remaining valid items are applied), a valid
item is applied to the metadata map, and the three routes always answer
success when a document is loaded. -/
theorem batch_partial_tolerance :
    (∀ (s : SysState) (cnt : Nat) (it : ThreadItem) (rest : List ThreadItem),
      (∀ fid, it.face_id = some fid →
        fid < 0 ∨ (s.model.face_shapes.length : Int) ≤ fid) →
      List.foldl applyThreadItem (s, cnt) (it :: rest) =
        List.foldl applyThreadItem (s, cnt) rest) ∧
    (∀ (s : SysState) (cnt : Nat) (it : ColorItem) (rest : List ColorItem),
      (∀ fid, it.face_id = some fid →
        fid < 0 ∨ (s.model.face_shapes.length : Int) ≤ fid) →
      List.foldl applyColorItem (s, cnt) (it :: rest) =
        List.foldl applyColorItem (s, cnt) rest) ∧
    (∀ (s : SysState) (cnt : Nat) (it : TolItem) (rest : List TolItem),
      (∀ fid, it.face_id = some fid →
        fid < 0 ∨ (s.model.face_shapes.length : Int) ≤ fid) →
      List.foldl applyTolItem (s, cnt) (it :: rest) =
        List.foldl applyTolItem (s, cnt) rest) ∧
    (∀ (s : SysState) (ups : List ThreadItem), s.model.doc ≠ none →
      (set_thread s ups).1.ok = true ∧ (set_thread s ups).1.status = 200) ∧
    (∀ (s : SysState) (ups : List ColorItem), s.model.doc ≠ none →
      (set_color s ups).1.ok = true ∧ (set_color s ups).1.status = 200) ∧
    (∀ (s : SysState) (ups : List TolItem), s.model.doc ≠ none →
      (set_tolerance s ups).1.ok = true ∧ (set_tolerance s ups).1.status = 200) ∧
    (∀ (s : SysState) (cnt : Nat) (fid : Int) (t : ThreadSpec),
      ¬(fid < 0 ∨ (s.model.face_shapes.length : Int) ≤ fid) →
      (applyThreadItem (s, cnt) ⟨some fid, some t⟩).1.model.face_meta =
        aupdate FaceRecord.empty (fun r => { r with thread := some t })
          s.model.face_meta fid.toNat) ∧
    (∀ (s : SysState) (cnt : Nat) (fid : Int) (t : TolSpec),
      ¬(fid < 0 ∨ (s.model.face_shapes.length : Int) ≤ fid) →
      (applyTolItem (s, cnt) ⟨some fid, some t⟩).1.model.face_meta =
        aupdate FaceRecord.empty (fun r => { r with tolerance := some t })
          s.model.face_meta fid.toNat) := by
  refine ⟨?_, ?_, ?_, ?_, ?_, ?_, applyThreadItem_valid, applyTolItem_valid⟩
  · intro s cnt it rest h
    rw [List.foldl_cons, applyThreadItem_skip s cnt it h]
  · intro s cnt it rest h
    rw [List.foldl_cons, applyColorItem_skip s cnt it h]
  · intro s cnt it rest h
    rw [List.foldl_cons, applyTolItem_skip s cnt it h]
  · intro s ups h
    unfold set_thread
    rw [if_neg h]
    exact ⟨rfl, rfl⟩
  · intro s ups h
    unfold set_color
    rw [if_neg h]
    exact ⟨rfl, rfl⟩
  · intro s ups h
    unfold set_tolerance
    rw [if_neg h]
    exact ⟨rfl, rfl⟩

/-- Witness for C4: a two-item thread batch on a one-face document — the
first item's index 5 is out of range, so the fold degenerates to the fold
over the valid tail. -/
theorem batch_partial_tolerance_witness :
    List.foldl applyThreadItem
      (({ model := { doc := some (), face_shapes := [Surf.noncyl],
                     face_labels := [true], face_hashes := ["h1"],
                     face_raws := [none], face_meta := [] },
          store := [], files := [] } : SysState), 0)
      [{ face_id := some 5, thread := some ⟨"M", "M6", "1.0", "6H"⟩ },
       { face_id := some 0, thread := some ⟨"M", "M6", "1.0", "6H"⟩ }] =
    List.foldl applyThreadItem
      (({ model := { doc := some (), face_shapes := [Surf.noncyl],
                     face_labels := [true], face_hashes := ["h1"],
                     face_raws := [none], face_meta := [] },
          store := [], files := [] } : SysState), 0)
      [{ face_id := some 0, thread := some ⟨"M", "M6", "1.0", "6H"⟩ }] :=
  batch_partial_tolerance.1 _ 0 _ _
    (by intro fid h; cases h; right; decide)

/-! ### C3: removing the last attribute — map deletion, store retention -/

/-- Counterexample to C3 as stated: after `set_thread` removes the last
attribute of face 0's record, the record is gone from the in-memory map but
a store lookup for the face's fingerprint still returns the old record —
the deletion does *not* reach the fingerprint store. -/
theorem empty_record_deletion_counterexample :
    (set_thread c3State [{ face_id := some 0, thread := none }]).2.model.face_meta
        = [] ∧
    alookup (set_thread c3State [{ face_id := some 0, thread := none }]).2.store
        "h1" = some ⟨{ thread := some ⟨"M", "M6", "1.0", "6H"⟩ }, none⟩ ∧
    (set_thread c3State [{ face_id := some 0, thread := none }]).1.ok = true := by
  decide

/-- C3 (amended).  Removing the last attribute of a face's record deletes
the record from the in-memory map (a subsequent in-memory lookup returns
nothing), and no write happens to the fingerprint store during that
operation — an empty record is never written; the face's pre-existing store
entry is left in place rather than deleted.  Stated for `set_thread` and
`set_tolerance` item processing. -/
theorem empty_record_deletion_amended :
    (∀ (s : SysState) (cnt : Nat) (fid : Int) (r : FaceRecord),
      (s.model.face_meta.map Prod.fst).Nodup →
      ¬(fid < 0 ∨ (s.model.face_shapes.length : Int) ≤ fid) →
      alookup s.model.face_meta fid.toNat = some r →
      r.color = none → r.tolerance = none →
      alookup (applyThreadItem (s, cnt) ⟨some fid, none⟩).1.model.face_meta
          fid.toNat = none ∧
        (applyThreadItem (s, cnt) ⟨some fid, none⟩).1.store = s.store ∧
        (applyThreadItem (s, cnt) ⟨some fid, none⟩).2 = cnt) ∧
    (∀ (s : SysState) (cnt : Nat) (fid : Int) (r : FaceRecord),
      (s.model.face_meta.map Prod.fst).Nodup →
      ¬(fid < 0 ∨ (s.model.face_shapes.length : Int) ≤ fid) →
      alookup s.model.face_meta fid.toNat = some r →
      r.color = none → r.thread = none →
      alookup (applyTolItem (s, cnt) ⟨some fid, none⟩).1.model.face_meta
          fid.toNat = none ∧
        (applyTolItem (s, cnt) ⟨some fid, none⟩).1.store = s.store ∧
        (applyTolItem (s, cnt) ⟨some fid, none⟩).2 = cnt) := by
  constructor
  · intro s cnt fid r hnd hrange hr hc ht
    obtain ⟨rc, rt, ro⟩ := r
    cases hc; cases ht
    have hpop : popAttr s.model.face_meta fid.toNat
        (fun x => { x with thread := none }) = aerase s.model.face_meta fid.toNat := by
      unfold popAttr
      rw [hr]
      rfl
    have hnone : alookup (aerase s.model.face_meta fid.toNat) fid.toNat = none :=
      alookup_aerase_self _ _ hnd
    unfold applyThreadItem
    simp only
    rw [if_neg hrange, hpop, persistFace_empty]
    · exact ⟨hnone, rfl, rfl⟩
    · simp only [hnone]
      rfl
  · intro s cnt fid r hnd hrange hr hc ht
    obtain ⟨rc, rt, ro⟩ := r
    cases hc; cases ht
    have hpop : popAttr s.model.face_meta fid.toNat
        (fun x => { x with tolerance := none }) = aerase s.model.face_meta fid.toNat := by
      unfold popAttr
      rw [hr]
      rfl
    have hnone : alookup (aerase s.model.face_meta fid.toNat) fid.toNat = none :=
      alookup_aerase_self _ _ hnd
    unfold applyTolItem
    simp only
    rw [if_neg hrange, hpop, persistFace_empty]
    · exact ⟨hnone, rfl, rfl⟩
    · simp only [hnone]
      rfl

/-- Witness for C3's amended theorem, at the counterexample state: removing
face 0's only attribute empties the in-memory lookup while the store is
left exactly as it was. -/
theorem empty_record_deletion_amended_witness :
    alookup (applyThreadItem (c3State, 0)
        ⟨some 0, none⟩).1.model.face_meta 0 = none ∧
      (applyThreadItem (c3State, 0) ⟨some 0, none⟩).1.store = c3State.store ∧
      (applyThreadItem (c3State, 0) ⟨some 0, none⟩).2 = 0 :=
  empty_record_deletion_amended.1 c3State 0 0
    { thread := some ⟨"M", "M6", "1.0", "6H"⟩ }
    (by decide) (by decide) (by decide) rfl rfl

/-! ### C8: export leaves the fingerprint store untouched -/

/-- C8.  `export_step` never mutates the fingerprint store: whatever the
annotation/export engine does (success or failure), and whether or not a
document is loaded, the store of the resulting state is the store it
started with. -/
theorem export_preserves_store
    (exporter : DocModel → Files → Option (Files × List Char)) (st : SysState) :
    (export_step exporter st).2.store = st.store := by
  unfold export_step
  split
  · rfl
  · split <;> rfl

/-! ### C1 / C10: the purge workflow -/

theorem ensureLoaded_error_ok (loader : List Char → Option LoadData)
    (st : SysState) (u : String) (es : AdminOut × SysState)
    (h : ensureLoaded loader st u = .error es) : es.1.ok = false := by
  unfold ensureLoaded at h
  split at h
  · exact nomatch h
  · split at h
    · injection h with h1
      rw [← h1]
      rfl
    · split at h
      · injection h with h1
        rw [← h1]
        rfl
      · exact nomatch h

theorem fileStage_error_ok (st : SysState) (u scope : String)
    (es : AdminOut × SysState)
    (h : fileStage st u scope = .error es) : es.1.ok = false := by
  unfold fileStage at h
  split at h
  · split at h
    · injection h with h1
      rw [← h1]
      rfl
    · exact nomatch h
  · exact nomatch h

theorem ensureLoaded_already (loader : List Char → Option LoadData)
    (st : SysState) (uuid : String) (hm : st.model.model_uuid = some uuid) :
    ensureLoaded loader st uuid = .ok st := by
  unfold ensureLoaded
  rw [if_pos hm]

theorem dbStage_db (st : SysState) :
    dbStage st "db" =
      ({ st with store := delete_faces st.store (hashes_to_delete st.model) },
        (hashes_to_delete st.model).length, ["Deleted DB entries"]) := by
  unfold dbStage
  rw [if_pos (Or.inl rfl), if_neg (by decide : ¬("db" : String) = "all")]

theorem dbStage_all (st : SysState) :
    dbStage st "all" =
      ({ st with store := [] }, 0, ["Deleted ALL DB entries (global wipe)"]) := by
  unfold dbStage
  rw [if_pos (Or.inr rfl), if_pos rfl]

theorem dbStage_other (st : SysState) (sc : String)
    (h1 : sc ≠ "db") (h3 : sc ≠ "all") : dbStage st sc = (st, 0, []) := by
  unfold dbStage
  rw [if_neg (not_or.mpr ⟨h1, h3⟩)]

theorem fileStage_strip (st : SysState) (u sc : String) (content : List Char)
    (hsc : sc = "file" ∨ sc = "all")
    (hfile : alookup st.files u = some content) :
    fileStage st u sc =
      .ok ({ st with files := aupdate [] (fun _ => stripFileMeta content) st.files u },
        !(extract_meta_from_step (stripFileMeta content)).isEmpty,
        ["Stripped STEP file"]) := by
  unfold fileStage
  rw [if_pos hsc, hfile]

theorem fileStage_skip (st : SysState) (u sc : String)
    (h2 : sc ≠ "file") (h3 : sc ≠ "all") :
    fileStage st u sc = .ok (st, false, []) := by
  unfold fileStage
  rw [if_neg (not_or.mpr ⟨h2, h3⟩)]

/-- C1.  The purge invariant: (i) whenever `admin_clear_metadata` answers
success — whatever scope was supplied — the in-memory metadata map of the
resulting session is empty; and (ii)–(iv) on an already-loaded document the
clearing is the terminal step layered on top of the scope's other effects:
scope `"db"` leaves this document's fingerprints deleted from the store and
the files untouched, scope `"file"` leaves the store untouched and the file
stripped, scope `"all"` leaves the store globally wiped and the file
stripped — and in each case the in-memory map of the final state is empty
and the call reports success. -/
theorem purge_always_clears_memory :
    (∀ (loader : List Char → Option LoadData) (st : SysState)
      (u sc : Option String),
      (admin_clear_metadata loader st u sc).1.ok = true →
      (admin_clear_metadata loader st u sc).2.model.face_meta = []) ∧
    (∀ (loader : List Char → Option LoadData) (st : SysState) (uuid : String),
      st.model.model_uuid = some uuid → uuid ≠ "" →
      (admin_clear_metadata loader st (some uuid) (some "db")).1.ok = true ∧
      (admin_clear_metadata loader st (some uuid) (some "db")).1.deleted_count =
        (hashes_to_delete st.model).length ∧
      (admin_clear_metadata loader st (some uuid) (some "db")).2 =
        { st with
            store := delete_faces st.store (hashes_to_delete st.model),
            model := { st.model with face_meta := [] } }) ∧
    (∀ (loader : List Char → Option LoadData) (st : SysState)
      (uuid : String) (content : List Char),
      st.model.model_uuid = some uuid → uuid ≠ "" →
      alookup st.files uuid = some content →
      (admin_clear_metadata loader st (some uuid) (some "file")).1.ok = true ∧
      (admin_clear_metadata loader st (some uuid) (some "file")).2 =
        { st with
            files := aupdate [] (fun _ => stripFileMeta content) st.files uuid,
            model := { st.model with face_meta := [] } }) ∧
    (∀ (loader : List Char → Option LoadData) (st : SysState)
      (uuid : String) (content : List Char),
      st.model.model_uuid = some uuid → uuid ≠ "" →
      alookup st.files uuid = some content →
      (admin_clear_metadata loader st (some uuid) (some "all")).1.ok = true ∧
      (admin_clear_metadata loader st (some uuid) (some "all")).2 =
        { st with
            store := [],
            files := aupdate [] (fun _ => stripFileMeta content) st.files uuid,
            model := { st.model with face_meta := [] } }) := by
  refine ⟨?_, ?_, ?_, ?_⟩
  · intro loader st u sc
    unfold admin_clear_metadata
    cases u with
    | none =>
      intro h
      simp [adminErr] at h
    | some uuid =>
      by_cases hu : uuid = ""
      · simp only [if_pos hu]
        intro h
        simp [adminErr] at h
      · simp only [if_neg hu]
        cases hE : ensureLoaded loader st uuid with
        | error es =>
          intro h
          have hf := ensureLoaded_error_ok loader st uuid es hE
          rw [hf] at h
          simp at h
        | ok st1 =>
          dsimp only
          cases hF : fileStage (dbStage st1 (sc.getD "all")).1 uuid (sc.getD "all") with
          | error es =>
            intro h
            have hf := fileStage_error_ok _ _ _ es hF
            rw [hf] at h
            simp at h
          | ok out =>
            intro _
            rfl
  · intro loader st uuid hm hu
    unfold admin_clear_metadata
    dsimp only [Option.getD_some]
    rw [if_neg hu, ensureLoaded_already loader st uuid hm]
    dsimp only
    rw [dbStage_db st]
    dsimp only
    rw [fileStage_skip _ uuid "db" (by decide) (by decide)]
    exact ⟨rfl, rfl, rfl⟩
  · intro loader st uuid content hm hu hfile
    unfold admin_clear_metadata
    dsimp only [Option.getD_some]
    rw [if_neg hu, ensureLoaded_already loader st uuid hm]
    dsimp only
    rw [dbStage_other st "file" (by decide) (by decide)]
    dsimp only
    rw [fileStage_strip st uuid "file" content (Or.inl rfl) hfile]
    exact ⟨rfl, rfl⟩
  · intro loader st uuid content hm hu hfile
    unfold admin_clear_metadata
    dsimp only [Option.getD_some]
    rw [if_neg hu, ensureLoaded_already loader st uuid hm]
    dsimp only
    rw [dbStage_all st]
    dsimp only
    rw [fileStage_strip { model := st.model, store := [], files := st.files }
      uuid "all" content (Or.inr rfl) hfile]
    exact ⟨rfl, rfl⟩

/-- Witness for C1: a successful `"db"`-scope purge of a loaded one-face
document empties the in-memory map and deletes the face's fingerprint. -/
theorem purge_always_clears_memory_witness :
    (admin_clear_metadata (fun _ => none)
      { c3State with model := { c3State.model with model_uuid := some "u1" } }
      (some "u1") (some "db")).1.ok = true ∧
    (admin_clear_metadata (fun _ => none)
      { c3State with model := { c3State.model with model_uuid := some "u1" } }
      (some "u1") (some "db")).2.model.face_meta = [] :=
  ⟨by decide,
   purge_always_clears_memory.1 (fun _ => none) _ (some "u1") (some "db")
     (by decide)⟩

/-- C10.  A purge request with a valid, already-loaded document identifier
but a scope outside `{db, file, all}` performs no database deletion and no
file stripping, still clears the in-memory metadata map, and reports success
with `deleted_count = 0`; and an omitted scope is literally the same call as
`scope="all"`. -/
theorem purge_unrecognized_scope
    (loader : List Char → Option LoadData) (st : SysState) (uuid sc : String)
    (hm : st.model.model_uuid = some uuid) (hu : uuid ≠ "")
    (h1 : sc ≠ "db") (h2 : sc ≠ "file") (h3 : sc ≠ "all") :
    (admin_clear_metadata loader st (some uuid) (some sc)).1.ok = true ∧
    (admin_clear_metadata loader st (some uuid) (some sc)).1.deleted_count = 0 ∧
    (admin_clear_metadata loader st (some uuid) (some sc)).2.store = st.store ∧
    (admin_clear_metadata loader st (some uuid) (some sc)).2.files = st.files ∧
    (admin_clear_metadata loader st (some uuid) (some sc)).2.model.face_meta = [] ∧
    (∀ (st' : SysState) (u' : Option String),
      admin_clear_metadata loader st' u' none =
        admin_clear_metadata loader st' u' (some "all")) := by
  unfold admin_clear_metadata
  dsimp only [Option.getD_some]
  rw [if_neg hu, ensureLoaded_already loader st uuid hm]
  dsimp only
  rw [dbStage_other st sc h1 h3]
  dsimp only
  rw [fileStage_skip st uuid sc h2 h3]
  exact ⟨rfl, rfl, rfl, rfl, rfl, fun _ _ => rfl⟩

/-- Witness for C10: `scope="bogus"` on a loaded document succeeds, deletes
nothing, strips nothing, and clears the in-memory map. -/
theorem purge_unrecognized_scope_witness :
    (admin_clear_metadata (fun _ => none)
      { c3State with model := { c3State.model with model_uuid := some "u1" } }
      (some "u1") (some "bogus")).1.ok = true ∧
    (admin_clear_metadata (fun _ => none)
      { c3State with model := { c3State.model with model_uuid := some "u1" } }
      (some "u1") (some "bogus")).2.model.face_meta = [] :=
  ⟨(purge_unrecognized_scope (fun _ => none) _ "u1" "bogus" rfl
      (by decide) (by decide) (by decide) (by decide)).1,
   (purge_unrecognized_scope (fun _ => none) _ "u1" "bogus" rfl
      (by decide) (by decide) (by decide) (by decide)).2.2.2.2.1⟩

/-! ### C6: failed loads roll the session back to empty -/

/-- C6.  When the loader raises, both load routes surface a structured
error and leave no faces, fingerprints, descriptors or metadata entries in
the session: `/upload` explicitly resets the session (so the final model is
the empty reset model), and `/api/model/<uuid>` — which resets before
loading — is left with the reset-plus-uuid session, all of whose face data
is empty.  The loader is all-or-nothing (spec §6), abstracted as returning
`none` on failure. -/
theorem load_failure_rolls_back :
    (∀ (loader : List Char → Option LoadData) (fresh : String)
      (st : SysState) (r : UploadReq),
      r.filename ≠ "" →
      (extLower r.filename = ".step".toList ∨ extLower r.filename = ".stp".toList) →
      loader r.content = none →
      (upload loader fresh st (some r)).1.ok = false ∧
      (upload loader fresh st (some r)).1.status = 500 ∧
      (upload loader fresh st (some r)).1.errorMsg.isSome = true ∧
      (upload loader fresh st (some r)).2.model = DocModel.reset) ∧
    (∀ (loader : List Char → Option LoadData) (st : SysState)
      (uuid : String) (content : List Char),
      alookup st.files uuid = some content →
      loader content = none →
      (get_model loader st uuid).1.ok = false ∧
      (get_model loader st uuid).1.status = 500 ∧
      (get_model loader st uuid).1.errorMsg.isSome = true ∧
      (get_model loader st uuid).2.model.doc = none ∧
      (get_model loader st uuid).2.model.face_shapes = [] ∧
      (get_model loader st uuid).2.model.face_hashes = [] ∧
      (get_model loader st uuid).2.model.face_raws = [] ∧
      (get_model loader st uuid).2.model.face_meta = []) := by
  constructor
  · intro loader fresh st r h1 h2 h3
    unfold upload
    dsimp only
    rw [if_neg h1, if_neg (by
      intro hc
      rcases h2 with h2 | h2
      · exact hc.1 h2
      · exact hc.2 h2)]
    rw [h3]
    exact ⟨rfl, rfl, rfl, rfl⟩
  · intro loader st uuid content h1 h2
    unfold get_model
    rw [h1]
    dsimp only
    rw [h2]
    exact ⟨rfl, rfl, rfl, rfl, rfl, rfl, rfl, rfl⟩

/-- Witness for C6: a loader that always fails, an upload of `part.step`
and a reload of a stored file both roll back to an empty session. -/
theorem load_failure_rolls_back_witness :
    (upload (fun _ => none) "u1"
      { model := {}, store := [], files := [] }
      (some { filename := "part.step", content := ['x'] })).2.model
        = DocModel.reset ∧
    (get_model (fun _ => none)
      { model := {}, store := [], files := [("m1", ['y'])] } "m1").2.model.face_meta
        = [] :=
  ⟨(load_failure_rolls_back.1 (fun _ => none) "u1"
      { model := {}, store := [], files := [] }
      { filename := "part.step", content := ['x'] }
      (by decide) (Or.inl (by decide)) rfl).2.2.2,
   (load_failure_rolls_back.2 (fun _ => none)
      { model := {}, store := [], files := [("m1", ['y'])] } "m1" ['y']
      (by decide) rfl).2.2.2.2.2.2.2⟩

/-! ### C9: `get_holes` grouping -/

theorem lookupG_addGroup (m : List (ℚ × List Nat)) (d : ℚ) (i : Nat) (x : ℚ) :
    lookupG (addGroup m d i) x =
      if x = d then lookupG m d ++ [i] else lookupG m x := by
  induction m with
  | nil =>
    by_cases h : x = d
    · simp [addGroup, lookupG, h]
    · simp [addGroup, lookupG, h, Ne.symm h]
  | cons p r ih =>
    obtain ⟨k, v⟩ := p
    by_cases hk : k = d
    · subst hk
      by_cases hx : x = k
      · subst hx
        simp [addGroup, lookupG]
      · simp [addGroup, lookupG, hx, Ne.symm hx]
    · by_cases hx : k = x
      · subst hx
        simp [addGroup, lookupG, hk]
      · simp [addGroup, lookupG, hk, hx, ih]

theorem keys_addGroup (m : List (ℚ × List Nat)) (d : ℚ) (i : Nat) :
    (addGroup m d i).map Prod.fst =
      if d ∈ m.map Prod.fst then m.map Prod.fst else m.map Prod.fst ++ [d] := by
  induction m with
  | nil => simp [addGroup]
  | cons p r ih =>
    obtain ⟨k, v⟩ := p
    by_cases hk : k = d
    · subst hk
      simp [addGroup]
    · simp only [addGroup, if_neg hk, List.map_cons, List.mem_cons]
      rw [ih]
      by_cases hd : d ∈ r.map Prod.fst
      · simp [hd, Ne.symm hk]
      · simp [hd, Ne.symm hk]

theorem nodup_keys_addGroup (m : List (ℚ × List Nat)) (d : ℚ) (i : Nat)
    (h : (m.map Prod.fst).Nodup) : ((addGroup m d i).map Prod.fst).Nodup := by
  rw [keys_addGroup]
  by_cases hd : d ∈ m.map Prod.fst
  · simpa [hd] using h
  · simp only [if_neg hd]
    exact List.Nodup.append h (List.nodup_singleton d)
      (by
        intro x hx hmem
        rw [List.mem_singleton] at hmem
        rw [hmem] at hx
        exact hd hx)

theorem groupFold_lookup (l : List (Nat × Surf)) (m : List (ℚ × List Nat))
    (x : ℚ) :
    lookupG (l.foldl groupStep m) x =
      lookupG m x ++
        (l.filter (fun p => get_cylinder_info p.2 = some x)).map Prod.fst := by
  induction l generalizing m with
  | nil => simp
  | cons p t ih =>
    obtain ⟨i, s⟩ := p
    rw [List.foldl_cons, ih]
    cases hc : get_cylinder_info s with
    | none =>
      simp [groupStep, hc]
    | some d =>
      by_cases hx : d = x
      · subst hx
        simp [groupStep, hc, lookupG_addGroup]
      · simp [groupStep, hc, lookupG_addGroup, hx, Ne.symm hx, List.filter_cons]

theorem groupFold_nodup (l : List (Nat × Surf)) (m : List (ℚ × List Nat))
    (h : (m.map Prod.fst).Nodup) :
    ((l.foldl groupStep m).map Prod.fst).Nodup := by
  induction l generalizing m with
  | nil => exact h
  | cons p t ih =>
    rw [List.foldl_cons]
    apply ih
    unfold groupStep
    cases get_cylinder_info p.2 with
    | none => exact h
    | some d => exact nodup_keys_addGroup m d p.1 h

theorem groupFold_keys_mem (l : List (Nat × Surf)) (m : List (ℚ × List Nat))
    (x : ℚ) :
    x ∈ (l.foldl groupStep m).map Prod.fst ↔
      x ∈ m.map Prod.fst ∨ ∃ p ∈ l, get_cylinder_info p.2 = some x := by
  induction l generalizing m with
  | nil => simp
  | cons p t ih =>
    obtain ⟨i, s⟩ := p
    rw [List.foldl_cons, ih]
    cases hc : get_cylinder_info s with
    | none =>
      simp only [groupStep, hc]
      constructor
      · rintro (h | h)
        · exact Or.inl h
        · exact Or.inr (by
            obtain ⟨q, hq, he⟩ := h
            exact ⟨q, List.mem_cons_of_mem _ hq, he⟩)
      · rintro (h | ⟨q, hq, he⟩)
        · exact Or.inl h
        · rcases List.mem_cons.1 hq with hq | hq
          · exfalso
            rw [hq] at he
            simp only at he
            rw [hc] at he
            exact nomatch he
          · exact Or.inr ⟨q, hq, he⟩
    | some d =>
      simp only [groupStep, hc, keys_addGroup]
      constructor
      · intro h
        by_cases hd : d ∈ m.map Prod.fst
        · rw [if_pos hd] at h
          rcases h with h | h
          · exact Or.inl h
          · obtain ⟨q, hq, he⟩ := h
            exact Or.inr ⟨q, List.mem_cons_of_mem _ hq, he⟩
        · rw [if_neg hd] at h
          rcases h with h | h
          · rcases List.mem_append.1 h with h | h
            · exact Or.inl h
            · rw [List.mem_singleton.1 h]
              exact Or.inr ⟨(i, s), List.mem_cons_self _ _, hc⟩
          · obtain ⟨q, hq, he⟩ := h
            exact Or.inr ⟨q, List.mem_cons_of_mem _ hq, he⟩
      · intro h
        by_cases hd : d ∈ m.map Prod.fst
        · rw [if_pos hd]
          rcases h with h | ⟨q, hq, he⟩
          · exact Or.inl h
          · rcases List.mem_cons.1 hq with hq | hq
            · rw [hq] at he
              simp only at he
              rw [hc] at he
              left
              rw [← Option.some_injective ℚ he]
              exact hd
            · exact Or.inr ⟨q, hq, he⟩
        · rw [if_neg hd]
          rcases h with h | ⟨q, hq, he⟩
          · exact Or.inl (List.mem_append.2 (Or.inl h))
          · rcases List.mem_cons.1 hq with hq | hq
            · rw [hq] at he
              simp only at he
              rw [hc] at he
              exact Or.inl (List.mem_append.2 (Or.inr (List.mem_singleton.2
                (Option.some_injective ℚ he).symm)))
            · exact Or.inr ⟨q, hq, he⟩

theorem mem_lookupG {m : List (ℚ × List Nat)} (hnd : (m.map Prod.fst).Nodup)
    {k : ℚ} {v : List Nat} (h : (k, v) ∈ m) : lookupG m k = v := by
  induction m with
  | nil => exact absurd h (List.not_mem_nil _)
  | cons p r ih =>
    obtain ⟨a, b⟩ := p
    simp only [List.map_cons, List.nodup_cons] at hnd
    rcases List.mem_cons.1 h with h | h
    · injection h with h1 h2
      rw [lookupG, if_pos (by rw [h1])]
      rw [← h2]
    · have hak : a ≠ k := by
        intro e
        apply hnd.1
        rw [e]
        exact List.mem_map.2 ⟨(k, v), h, rfl⟩
      rw [lookupG, if_neg hak]
      exact ih hnd.2 h

/-- C9.  `get_holes` returns one group per distinct rounded diameter of the
cylindrical faces — group diameters are pairwise distinct and listed in
ascending order, each group's `ids` are exactly the indices of the faces
with that rounded diameter (in index order) and its `count` is their number,
and every cylindrical face's diameter appears in some group; in particular,
a six-face document with two cylinders of radius 5 yields the single group
`{diameter 10, ids [1, 3], count 2}`. -/
theorem get_holes_grouping :
    (∀ (st : SysState) (gs : List HoleGroup), get_holes st = some gs →
      List.Sorted (· ≤ ·) (gs.map HoleGroup.diameter) ∧
      (gs.map HoleGroup.diameter).Nodup ∧
      (∀ g ∈ gs, g.count = g.ids.length ∧
        g.ids = (st.model.face_shapes.enum.filter
          (fun p => get_cylinder_info p.2 = some g.diameter)).map Prod.fst) ∧
      (∀ p ∈ st.model.face_shapes.enum, ∀ d, get_cylinder_info p.2 = some d →
        ∃ g ∈ gs, g.diameter = d)) ∧
    get_holes
      { model := { doc := some (), face_shapes :=
          [Surf.noncyl, Surf.cyl 5, Surf.noncyl, Surf.cyl 5,
           Surf.noncyl, Surf.noncyl] },
        store := [], files := [] } =
      some [{ diameter := 10, ids := [1, 3], count := 2 }] := by
  constructor
  · intro st gs h
    unfold get_holes at h
    split at h
    · exact nomatch h
    · injection h with h
      subst h
      haveI hTot : IsTotal (ℚ × List Nat)
          (fun a b : ℚ × List Nat => a.1 ≤ b.1) :=
        ⟨fun a b => le_total a.1 b.1⟩
      haveI hTrans : IsTrans (ℚ × List Nat)
          (fun a b : ℚ × List Nat => a.1 ≤ b.1) :=
        ⟨fun _ _ _ h1 h2 => le_trans h1 h2⟩
      have permS := List.perm_insertionSort
        (fun a b : ℚ × List Nat => a.1 ≤ b.1)
        (groupHoles st.model.face_shapes)
      have sortedS := List.sorted_insertionSort
        (fun a b : ℚ × List Nat => a.1 ≤ b.1)
        (groupHoles st.model.face_shapes)
      have nodupKeys : ((groupHoles st.model.face_shapes).map Prod.fst).Nodup := by
        unfold groupHoles
        exact groupFold_nodup _ [] (by simp)
      refine ⟨?_, ?_, ?_, ?_⟩
      · rw [List.map_map]
        exact List.Pairwise.map _ (fun a b hab => hab) sortedS
      · rw [List.map_map]
        have hp : List.Perm
            ((List.insertionSort (fun a b : ℚ × List Nat => a.1 ≤ b.1)
              (groupHoles st.model.face_shapes)).map Prod.fst)
            ((groupHoles st.model.face_shapes).map Prod.fst) :=
          permS.map Prod.fst
        exact hp.nodup_iff.2 nodupKeys
      · intro g hg
        obtain ⟨p, hpS, he⟩ := List.mem_map.1 hg
        obtain ⟨k, v⟩ := p
        have hpG : (k, v) ∈ groupHoles st.model.face_shapes :=
          permS.subset hpS
        have hv : lookupG (groupHoles st.model.face_shapes) k = v :=
          mem_lookupG nodupKeys hpG
        have hfilter : v = (st.model.face_shapes.enum.filter
            (fun p => get_cylinder_info p.2 = some k)).map Prod.fst := by
          rw [← hv]
          unfold groupHoles
          rw [groupFold_lookup]
          rfl
        subst he
        exact ⟨rfl, hfilter⟩
      · intro p hp d hd
        have hmem : d ∈ (groupHoles st.model.face_shapes).map Prod.fst := by
          unfold groupHoles
          exact (groupFold_keys_mem _ [] d).2 (Or.inr ⟨p, hp, hd⟩)
        obtain ⟨q, hqG, hfst⟩ := List.mem_map.1 hmem
        have hqS : q ∈ List.insertionSort (fun a b : ℚ × List Nat => a.1 ≤ b.1)
            (groupHoles st.model.face_shapes) := permS.mem_iff.2 hqG
        exact ⟨⟨q.1, q.2, q.2.length⟩, List.mem_map_of_mem _ hqS, hfst⟩
  · unfold get_holes groupHoles
    norm_num [List.enum, groupStep, get_cylinder_info, round4, addGroup,
      List.insertionSort, List.orderedInsert]
    exact fun h => nomatch h

/-- Witness for C9's quantified part, at the six-face two-cylinder state. -/
theorem get_holes_grouping_witness :
    List.Sorted (· ≤ ·)
      (([({ diameter := 10, ids := [1, 3], count := 2 } : HoleGroup)]).map
        HoleGroup.diameter) ∧
    (([({ diameter := 10, ids := [1, 3], count := 2 } : HoleGroup)]).map
        HoleGroup.diameter).Nodup :=
  ⟨(get_holes_grouping.1
      { model := { doc := some (), face_shapes :=
          [Surf.noncyl, Surf.cyl 5, Surf.noncyl, Surf.cyl 5,
           Surf.noncyl, Surf.noncyl] },
        store := [], files := [] }
      [{ diameter := 10, ids := [1, 3], count := 2 }]
      (by
        unfold get_holes groupHoles
        norm_num [List.enum, groupStep, get_cylinder_info, round4, addGroup,
          List.insertionSort, List.orderedInsert]
        exact fun h => nomatch h)).1,
   (get_holes_grouping.1
      { model := { doc := some (), face_shapes :=
          [Surf.noncyl, Surf.cyl 5, Surf.noncyl, Surf.cyl 5,
           Surf.noncyl, Surf.noncyl] },
        store := [], files := [] }
      [{ diameter := 10, ids := [1, 3], count := 2 }]
      (by
        unfold get_holes groupHoles
        norm_num [List.enum, groupStep, get_cylinder_info, round4, addGroup,
          List.insertionSort, List.orderedInsert]
        exact fun h => nomatch h)).2.1⟩

/-! ### C2 / C7: string-scanning infrastructure

The lemmas below justify, step by step, that the three `re.sub` scanners
walk over match-free text unchanged, consume an explicit occurrence exactly,
and leave text with no further occurrence alone. -/

theorem infix_via_drop {p s : List Char} {i : Nat}
    (h : p <+: s.drop i) : p <:+: s :=
  h.isInfix.trans (List.drop_suffix i s).isInfix

theorem not_infix_of_not_mem {c : Char} {p s : List Char}
    (hc : c ∈ p) (h : c ∉ s) : ¬ p <:+: s :=
  fun hi => h (hi.subset hc)

theorem no_match_start_charFree {c0 : Char} {tl a : List Char}
    (ha : c0 ∉ a) (b : List Char) :
    ∀ i, i < a.length → ¬ (c0 :: tl) <+: (a.drop i ++ b) := by
  intro i hi hp
  rw [List.drop_eq_getElem_cons hi, List.cons_append] at hp
  obtain ⟨t, ht⟩ := hp
  rw [List.cons_append] at ht
  injection ht with h1 _
  exact ha (h1 ▸ List.getElem_mem hi)

theorem no_match_start_border {pat a : List Char} (c : List Char)
    (hb : noBorder pat) (ha : ¬ pat <:+: a) :
    ∀ i, i < a.length → ¬ pat <+: (a.drop i ++ (pat ++ c)) := by
  intro i hi h
  by_cases hlen : pat.length ≤ (a.drop i).length
  · apply ha
    apply infix_via_drop (i := i)
    rw [List.prefix_iff_eq_take] at h ⊢
    rw [h, List.take_append_of_le_length hlen, List.length_take,
      Nat.min_eq_left hlen]
  · push_neg at hlen
    obtain ⟨t, ht⟩ := h
    have hj0 : 0 < (a.drop i).length := by
      rw [List.length_drop]
      omega
    have h2 : pat.drop (a.drop i).length <+: pat ++ c := by
      refine ⟨t, ?_⟩
      have hd := congrArg (List.drop (a.drop i).length) ht
      rw [List.drop_append_of_le_length (le_of_lt hlen), List.drop_left] at hd
      exact hd
    have h3 : pat.drop (a.drop i).length <+: pat := by
      rw [List.prefix_iff_eq_take] at h2 ⊢
      rw [h2, List.take_append_of_le_length (by simp), List.length_take,
        Nat.min_eq_left (by simp)]
    have h4 : pat.drop (a.drop i).length =
        pat.take (pat.length - (a.drop i).length) := by
      rw [List.prefix_iff_eq_take] at h3
      rw [h3]
      congr 1
      simp
    exact hb (a.drop i).length hlen hj0 h4

theorem takeWhile_middle (f : Char → Bool) (w r : List Char) (c : Char)
    (hw : ∀ x ∈ w, f x = true) (hc : f c = false) :
    (w ++ c :: r).takeWhile f = w ∧ (w ++ c :: r).dropWhile f = c :: r := by
  induction w with
  | nil =>
    simp [List.takeWhile_cons, List.dropWhile_cons, hc]
  | cons x w' ih =>
    have hx : f x = true := hw x (List.mem_cons_self _ _)
    have ih' := ih (fun y hy => hw y (List.mem_cons_of_mem _ hy))
    simp [List.takeWhile_cons, List.dropWhile_cons, hx, ih'.1, ih'.2]

theorem splitTerm_charFree (c0 : Char) (tl p b : List Char) (hp : c0 ∉ p) :
    splitTerm (c0 :: tl) (p ++ ((c0 :: tl) ++ b)) = some (p, b) := by
  induction p with
  | nil =>
    rw [List.nil_append, List.cons_append, splitTerm]
    rw [if_pos (List.isPrefixOf_iff_prefix.2
      (by rw [← List.cons_append]; exact List.prefix_append _ b))]
    rw [← List.cons_append, List.drop_left]
  | cons x p' ih =>
    rw [List.cons_append, splitTerm]
    have hnp : (c0 :: tl).isPrefixOf (x :: (p' ++ ((c0 :: tl) ++ b))) = false := by
      rw [Bool.eq_false_iff]
      intro hT
      obtain ⟨t, ht⟩ := List.isPrefixOf_iff_prefix.1 hT
      rw [List.cons_append] at ht
      injection ht with h1 _
      exact hp (h1 ▸ List.mem_cons_self x p')
    rw [hnp]
    simp only [Bool.false_eq_true, if_false]
    rw [ih (fun hx => hp (List.mem_cons_of_mem _ hx))]
    rfl

theorem stripSVFMF_nil (n : Nat) : stripSVFMF n [] = [] := by
  cases n <;> rfl

theorem stripSVFMF_append (n : Nat) (a b : List Char)
    (h : ∀ i, i < a.length → ¬ pSVFM <+: (a.drop i ++ b)) :
    stripSVFMF n (a ++ b) = a ++ stripSVFMF (n - a.length) b := by
  induction a generalizing n with
  | nil => simp
  | cons c a' ih =>
    cases n with
    | zero => simp [stripSVFMF]
    | succ m =>
      have h0 : pSVFM.isPrefixOf (c :: (a' ++ b)) = false := by
        rw [Bool.eq_false_iff]
        intro hT
        exact h 0 (Nat.succ_pos _) (List.isPrefixOf_iff_prefix.1 hT)
      rw [List.cons_append, stripSVFMF, h0]
      simp only [Bool.false_eq_true, if_false]
      rw [ih m (fun i hi hp => h (i + 1) (Nat.succ_lt_succ hi) hp)]
      rw [List.length_cons, Nat.succ_sub_succ, List.cons_append]

theorem stripSVFMF_no_occurrence (n : Nat) (s : List Char)
    (h : ¬ pSVFM <:+: s) : stripSVFMF n s = s := by
  have h' : ∀ i, i < s.length → ¬ pSVFM <+: (s.drop i ++ ([] : List Char)) := by
    intro i hi hp
    rw [List.append_nil] at hp
    exact h (infix_via_drop hp)
  have hs := stripSVFMF_append n s [] h'
  rw [List.append_nil] at hs
  rw [hs, stripSVFMF_nil, List.append_nil]

theorem stripSVFMF_match (n : Nat) (p b : List Char) (hp : ']' ∉ p) :
    stripSVFMF (n + 1) (pSVFM ++ (p ++ (']' :: b))) = stripSVFMF n b := by
  have hcons : pSVFM ++ (p ++ (']' :: b)) =
      '[' :: ("SVFM:".toList ++ (p ++ (']' :: b))) := rfl
  have hpre : pSVFM.isPrefixOf ('[' :: ("SVFM:".toList ++ (p ++ (']' :: b))))
      = true :=
    List.isPrefixOf_iff_prefix.2 ⟨p ++ (']' :: b), rfl⟩
  have hdrop : ('[' :: ("SVFM:".toList ++ (p ++ (']' :: b)))).drop pSVFM.length
      = p ++ (']' :: b) := by
    rw [← hcons]
    exact List.drop_left pSVFM _
  have hsp : splitTerm pRB (p ++ (']' :: b)) = some (p, b) :=
    splitTerm_charFree ']' [] p b hp
  rw [hcons, stripSVFMF, hpre, if_pos rfl, hdrop, hsp]

theorem stripCommentF_nil (n : Nat) : stripCommentF n [] = [] := by
  cases n <;> rfl

theorem stripCommentF_append (n : Nat) (a b : List Char)
    (h : ∀ i, i < a.length → ¬ pComStart <+: (a.drop i ++ b)) :
    stripCommentF n (a ++ b) = a ++ stripCommentF (n - a.length) b := by
  induction a generalizing n with
  | nil => simp
  | cons c a' ih =>
    cases n with
    | zero => simp [stripCommentF]
    | succ m =>
      have h0 : pComStart.isPrefixOf (c :: (a' ++ b)) = false := by
        rw [Bool.eq_false_iff]
        intro hT
        exact h 0 (Nat.succ_pos _) (List.isPrefixOf_iff_prefix.1 hT)
      rw [List.cons_append, stripCommentF, h0]
      simp only [Bool.false_eq_true, if_false]
      rw [ih m (fun i hi hp => h (i + 1) (Nat.succ_lt_succ hi) hp)]
      rw [List.length_cons, Nat.succ_sub_succ, List.cons_append]

theorem stripCommentF_no_occurrence (n : Nat) (s : List Char)
    (h : ¬ pComStart <:+: s) : stripCommentF n s = s := by
  have h' : ∀ i, i < s.length → ¬ pComStart <+: (s.drop i ++ ([] : List Char)) := by
    intro i hi hp
    rw [List.append_nil] at hp
    exact h (infix_via_drop hp)
  have hs := stripCommentF_append n s [] h'
  rw [List.append_nil] at hs
  rw [hs, stripCommentF_nil, List.append_nil]

theorem stripCommentF_match (n : Nat) (p b : List Char) (hp : ' ' ∉ p) :
    stripCommentF (n + 1) (pComStart ++ (p ++ (pComEnd ++ b))) =
      stripCommentF n b := by
  have hcons : pComStart ++ (p ++ (pComEnd ++ b)) =
      '/' :: ("* __STEPVIEWER_META_START__ ".toList ++ (p ++ (pComEnd ++ b))) := rfl
  have hpre : pComStart.isPrefixOf ('/' ::
      ("* __STEPVIEWER_META_START__ ".toList ++ (p ++ (pComEnd ++ b)))) = true :=
    List.isPrefixOf_iff_prefix.2 ⟨p ++ (pComEnd ++ b), rfl⟩
  have hdrop : ('/' :: ("* __STEPVIEWER_META_START__ ".toList ++
      (p ++ (pComEnd ++ b)))).drop pComStart.length = p ++ (pComEnd ++ b) := by
    rw [← hcons]
    exact List.drop_left pComStart _
  have hsp : splitTerm pComEnd (p ++ (pComEnd ++ b)) = some (p, b) :=
    splitTerm_charFree ' ' "__STEPVIEWER_META_END__ */".toList p b hp
  rw [hcons, stripCommentF, hpre, if_pos rfl, hdrop, hsp]

theorem findTagPayloadF_none (t : List Char) (h : '[' ∉ t) :
    ∀ n, findTagPayloadF n t = none := by
  induction t with
  | nil => intro n; cases n <;> rfl
  | cons c cs ih =>
    intro n
    cases n with
    | zero => rfl
    | succ m =>
      have h0 : pSVFM.isPrefixOf (c :: cs) = false := by
        rw [Bool.eq_false_iff]
        intro hT
        obtain ⟨t', ht⟩ := List.isPrefixOf_iff_prefix.1 hT
        rw [show pSVFM ++ t' = '[' :: ("SVFM:".toList ++ t') from rfl] at ht
        injection ht with h1 _
        exact h (h1 ▸ List.mem_cons_self c cs)
      rw [findTagPayloadF, h0]
      simp only [Bool.false_eq_true, if_false]
      exact ih (fun hx => h (List.mem_cons_of_mem _ hx)) m

theorem findCommentPayloadF_none (t : List Char) (h : '/' ∉ t) :
    ∀ n, findCommentPayloadF n t = none := by
  induction t with
  | nil => intro n; cases n <;> rfl
  | cons c cs ih =>
    intro n
    cases n with
    | zero => rfl
    | succ m =>
      have h0 : pComStart.isPrefixOf (c :: cs) = false := by
        rw [Bool.eq_false_iff]
        intro hT
        obtain ⟨t', ht⟩ := List.isPrefixOf_iff_prefix.1 hT
        rw [show pComStart ++ t' =
          '/' :: ("* __STEPVIEWER_META_START__ ".toList ++ t') from rfl] at ht
        injection ht with h1 _
        exact h (h1 ▸ List.mem_cons_self c cs)
      rw [findCommentPayloadF, h0]
      simp only [Bool.false_eq_true, if_false]
      exact ih (fun hx => h (List.mem_cons_of_mem _ hx)) m

theorem matchEntity_none (s : List Char) (h : ¬ pDRI <+: s) :
    matchEntity s = none := by
  unfold matchEntity
  rw [show pDRI.isPrefixOf s = false from
    Bool.eq_false_iff.2 (fun hT => h (List.isPrefixOf_iff_prefix.1 hT))]
  simp

theorem blankEntityF_nil (n : Nat) : blankEntityF n [] = [] := by
  cases n <;> rfl

theorem blankEntityF_append (n : Nat) (a b : List Char)
    (h : ∀ i, i < a.length → matchEntity (a.drop i ++ b) = none) :
    blankEntityF n (a ++ b) = a ++ blankEntityF (n - a.length) b := by
  induction a generalizing n with
  | nil => simp
  | cons c a' ih =>
    cases n with
    | zero => simp [blankEntityF]
    | succ m =>
      have h0 : matchEntity (c :: (a' ++ b)) = none := h 0 (Nat.succ_pos _)
      rw [List.cons_append, blankEntityF, h0]
      rw [ih m (fun i hi => h (i + 1) (Nat.succ_lt_succ hi))]
      rw [List.length_cons, Nat.succ_sub_succ, List.cons_append]

theorem blankEntityF_no_occurrence (n : Nat) (s : List Char)
    (h : ¬ pDRI <:+: s) : blankEntityF n s = s := by
  have h' : ∀ i, i < s.length →
      matchEntity (s.drop i ++ ([] : List Char)) = none := by
    intro i hi
    rw [List.append_nil]
    exact matchEntity_none _ (fun hp => h (infix_via_drop hp))
  have hs := blankEntityF_append n s [] h'
  rw [List.append_nil] at hs
  rw [hs, blankEntityF_nil, List.append_nil]

theorem findEntityPayloadF_append (n : Nat) (a b : List Char)
    (h : ∀ i, i < a.length → matchEntity (a.drop i ++ b) = none) :
    findEntityPayloadF n (a ++ b) = findEntityPayloadF (n - a.length) b := by
  induction a generalizing n with
  | nil => simp
  | cons c a' ih =>
    cases n with
    | zero => simp [findEntityPayloadF]
    | succ m =>
      have h0 : matchEntity (c :: (a' ++ b)) = none := h 0 (Nat.succ_pos _)
      rw [List.cons_append, findEntityPayloadF, h0]
      rw [ih m (fun i hi => h (i + 1) (Nat.succ_lt_succ hi))]
      rw [List.length_cons, Nat.succ_sub_succ]

theorem matchEntity_gen (tag pay w1 w2 w3 w4 w5 b : List Char)
    (htag : tag = tagSVFM ∨ tag = tagLong)
    (h1 : ∀ x ∈ w1, isWS x = true) (h2 : ∀ x ∈ w2, isWS x = true)
    (h3 : ∀ x ∈ w3, isWS x = true) (h4 : ∀ x ∈ w4, isWS x = true)
    (h5 : ∀ x ∈ w5, isWS x = true) (hpay : qc ∉ pay) :
    matchEntity (entityGen tag pay w1 w2 w3 w4 w5 ++ b) =
      some (entityGen tag [] w1 w2 w3 w4 w5, pay, b) := by
  have e0 : entityGen tag pay w1 w2 w3 w4 w5 ++ b =
      pDRI ++ (w1 ++ '(' :: (w2 ++ qc :: (tag ++ (qc :: (w3 ++ ',' ::
        (w4 ++ qc :: (pay ++ qc :: (w5 ++ ')' :: b)))))))) := by
    simp [entityGen]
  rw [e0]
  have hfq : ∀ x ∈ pay, (x != qc) = true := by
    intro x hx
    simp only [bne_iff_ne, ne_eq]
    exact fun e => hpay (e ▸ hx)
  have tw1 := takeWhile_middle isWS w1
    (w2 ++ qc :: (tag ++ (qc :: (w3 ++ ',' ::
      (w4 ++ qc :: (pay ++ qc :: (w5 ++ ')' :: b))))))) '(' h1 (by decide)
  have tw2 := takeWhile_middle isWS w2
    (tag ++ (qc :: (w3 ++ ',' :: (w4 ++ qc :: (pay ++ qc :: (w5 ++ ')' :: b))))))
    qc h2 (by decide)
  have tw3 := takeWhile_middle isWS w3
    (w4 ++ qc :: (pay ++ qc :: (w5 ++ ')' :: b))) ',' h3 (by decide)
  have tw4 := takeWhile_middle isWS w4
    (pay ++ qc :: (w5 ++ ')' :: b)) qc h4 (by decide)
  have tw5 := takeWhile_middle isWS w5 b ')' h5 (by decide)
  have twp := takeWhile_middle (fun c => c != qc) pay (w5 ++ ')' :: b) qc
    hfq (by simp)
  have hdrop : (pDRI ++ (w1 ++ '(' :: (w2 ++ qc :: (tag ++ (qc :: (w3 ++ ',' ::
      (w4 ++ qc :: (pay ++ qc :: (w5 ++ ')' :: b))))))))).drop pDRI.length =
      w1 ++ '(' :: (w2 ++ qc :: (tag ++ (qc :: (w3 ++ ',' ::
        (w4 ++ qc :: (pay ++ qc :: (w5 ++ ')' :: b))))))) :=
    List.drop_left _ _
  have hpre : pDRI.isPrefixOf (pDRI ++ (w1 ++ '(' :: (w2 ++ qc ::
      (tag ++ (qc :: (w3 ++ ',' :: (w4 ++ qc ::
        (pay ++ qc :: (w5 ++ ')' :: b)))))))))  = true :=
    List.isPrefixOf_iff_prefix.2 (List.prefix_append _ _)
  rcases htag with htag | htag
  · subst htag
    have ip1 : (tagSVFM ++ [qc]).isPrefixOf (tagSVFM ++ (qc :: (w3 ++ ',' ::
        (w4 ++ qc :: (pay ++ qc :: (w5 ++ ')' :: b)))))) = true := by
      apply List.isPrefixOf_iff_prefix.2
      refine ⟨w3 ++ ',' :: (w4 ++ qc :: (pay ++ qc :: (w5 ++ ')' :: b))), ?_⟩
      simp
    have d1 : (tagSVFM ++ (qc :: (w3 ++ ',' :: (w4 ++ qc ::
        (pay ++ qc :: (w5 ++ ')' :: b)))))).drop (tagSVFM.length + 1) =
        w3 ++ ',' :: (w4 ++ qc :: (pay ++ qc :: (w5 ++ ')' :: b))) := by
      rw [show tagSVFM ++ (qc :: (w3 ++ ',' :: (w4 ++ qc ::
        (pay ++ qc :: (w5 ++ ')' :: b))))) = (tagSVFM ++ [qc]) ++
        (w3 ++ ',' :: (w4 ++ qc :: (pay ++ qc :: (w5 ++ ')' :: b)))) by simp]
      rw [show tagSVFM.length + 1 = (tagSVFM ++ [qc]).length by simp]
      exact List.drop_left _ _
    simp only [matchEntity, hpre, if_pos, hdrop, tw1.1, tw1.2, tw2.1, tw2.2,
      ip1, d1, tw3.1, tw3.2, tw4.1, tw4.2, twp.1, twp.2, tw5.1, tw5.2,
      if_true, entityGen, List.nil_append, List.append_assoc,
      List.cons_append, List.singleton_append]
  · subst htag
    have ip0 : (tagSVFM ++ [qc]).isPrefixOf (tagLong ++ (qc :: (w3 ++ ',' ::
        (w4 ++ qc :: (pay ++ qc :: (w5 ++ ')' :: b)))))) = false := rfl
    have ip1 : (tagLong ++ [qc]).isPrefixOf (tagLong ++ (qc :: (w3 ++ ',' ::
        (w4 ++ qc :: (pay ++ qc :: (w5 ++ ')' :: b)))))) = true := by
      apply List.isPrefixOf_iff_prefix.2
      refine ⟨w3 ++ ',' :: (w4 ++ qc :: (pay ++ qc :: (w5 ++ ')' :: b))), ?_⟩
      simp
    have d1 : (tagLong ++ (qc :: (w3 ++ ',' :: (w4 ++ qc ::
        (pay ++ qc :: (w5 ++ ')' :: b)))))).drop (tagLong.length + 1) =
        w3 ++ ',' :: (w4 ++ qc :: (pay ++ qc :: (w5 ++ ')' :: b))) := by
      rw [show tagLong ++ (qc :: (w3 ++ ',' :: (w4 ++ qc ::
        (pay ++ qc :: (w5 ++ ')' :: b))))) = (tagLong ++ [qc]) ++
        (w3 ++ ',' :: (w4 ++ qc :: (pay ++ qc :: (w5 ++ ')' :: b)))) by simp]
      rw [show tagLong.length + 1 = (tagLong ++ [qc]).length by simp]
      exact List.drop_left _ _
    simp only [matchEntity, hpre, if_pos, hdrop, tw1.1, tw1.2, tw2.1, tw2.2,
      ip0, ip1, d1, tw3.1, tw3.2, tw4.1, tw4.2, twp.1, twp.2, tw5.1, tw5.2,
      if_true, Bool.false_eq_true, if_false, entityGen, List.nil_append,
      List.append_assoc, List.cons_append, List.singleton_append]

/-! ### Payload alphabet -/

theorem hexDigit_mem (n : Nat) : hexDigit n ∈ hexChars := by
  unfold hexDigit
  have h16 : n % 16 < hexChars.length := Nat.mod_lt n (by decide)
  rw [List.getD_eq_getElem hexChars '0' h16]
  exact List.getElem_mem h16

theorem mem_encChar {c : Char} {x : Char} (h : c ∈ encChar x) : c ∈ hexChars := by
  rcases List.mem_cons.1 h with h | h
  · exact h ▸ hexDigit_mem _
  · rcases List.mem_singleton.1 h with rfl
    exact hexDigit_mem _

theorem mem_encStr {c : Char} {s : String} (h : c ∈ encStr s) : c ∈ hexChars := by
  unfold encStr at h
  obtain ⟨l, hl, hcl⟩ := List.mem_flatten.1 h
  obtain ⟨x, _, rfl⟩ := List.mem_map.1 hl
  exact mem_encChar hcl

theorem mem_joinSemi {c : Char} : ∀ {fs : List (List Char)},
    c ∈ joinSemi fs → c = ';' ∨ ∃ f ∈ fs, c ∈ f := by
  intro fs
  induction fs with
  | nil => intro h; exact absurd h (List.not_mem_nil c)
  | cons f t ih =>
    cases t with
    | nil =>
      intro h
      exact Or.inr ⟨f, List.mem_cons_self _ _, h⟩
    | cons g t' =>
      intro h
      rcases List.mem_append.1 h with h | h
      · exact Or.inr ⟨f, List.mem_cons_self _ _, h⟩
      · rcases List.mem_cons.1 h with h | h
        · exact Or.inl h
        · rcases ih h with h | ⟨f', hf', hcf'⟩
          · exact Or.inl h
          · exact Or.inr ⟨f', List.mem_cons_of_mem _ hf', hcf'⟩

theorem mem_encodePayload (r : FaceRecord) :
    ∀ c ∈ encodePayload r, c ∈ safeChars := by
  intro c hc
  unfold encodePayload at hc
  have hhex : c ∈ hexChars → c ∈ safeChars := List.mem_cons_of_mem _
  have hstr : ∀ s : String, c ∈ encStr s → c ∈ safeChars :=
    fun s hs => hhex (mem_encStr hs)
  rcases mem_joinSemi hc with h | ⟨f, hf, hcf⟩
  · rw [h]
    exact List.mem_cons_self _ _
  · simp only [List.mem_cons, List.not_mem_nil, or_false] at hf
    rcases hf with rfl | rfl | rfl | rfl | rfl | rfl | rfl | rfl | rfl | rfl
    · cases hcol : r.color with
      | none =>
        rw [hcol] at hcf
        rcases List.mem_singleton.1 hcf with rfl
        decide
      | some s =>
        rw [hcol] at hcf
        rcases List.mem_cons.1 hcf with rfl | hcf
        · decide
        · exact hstr s hcf
    · cases hth : r.thread with
      | none =>
        rw [hth] at hcf
        rcases List.mem_singleton.1 hcf with rfl
        decide
      | some t =>
        rw [hth] at hcf
        rcases List.mem_singleton.1 hcf with rfl
        decide
    · cases hth : r.thread with
      | none => rw [hth] at hcf; exact absurd hcf (List.not_mem_nil c)
      | some t => rw [hth] at hcf; exact hstr _ hcf
    · cases hth : r.thread with
      | none => rw [hth] at hcf; exact absurd hcf (List.not_mem_nil c)
      | some t => rw [hth] at hcf; exact hstr _ hcf
    · cases hth : r.thread with
      | none => rw [hth] at hcf; exact absurd hcf (List.not_mem_nil c)
      | some t => rw [hth] at hcf; exact hstr _ hcf
    · cases hth : r.thread with
      | none => rw [hth] at hcf; exact absurd hcf (List.not_mem_nil c)
      | some t => rw [hth] at hcf; exact hstr _ hcf
    · cases hto : r.tolerance with
      | none =>
        rw [hto] at hcf
        rcases List.mem_singleton.1 hcf with rfl
        decide
      | some t =>
        rw [hto] at hcf
        rcases List.mem_singleton.1 hcf with rfl
        decide
    · cases hto : r.tolerance with
      | none => rw [hto] at hcf; exact absurd hcf (List.not_mem_nil c)
      | some t => rw [hto] at hcf; exact hstr _ hcf
    · cases hto : r.tolerance with
      | none => rw [hto] at hcf; exact absurd hcf (List.not_mem_nil c)
      | some t => rw [hto] at hcf; exact hstr _ hcf
    · cases hto : r.tolerance with
      | none => rw [hto] at hcf; exact absurd hcf (List.not_mem_nil c)
      | some t => rw [hto] at hcf; exact hstr _ hcf

theorem payload_safe (r : FaceRecord) {ch : Char} (h : ch ∉ safeChars) :
    ch ∉ encodePayload r :=
  fun hm => h (mem_encodePayload r ch hm)

/-! ### Characters of the three embedded constructs -/

theorem mem_entityText {c : Char} {tag pay : List Char}
    (h : c ∈ entityText tag pay) :
    c ∈ pDRI ∨ c = '(' ∨ c = qc ∨ c ∈ tag ∨ c = ',' ∨ c ∈ pay ∨ c = ')' := by
  simp only [entityText, List.mem_append, List.mem_cons,
    List.mem_singleton] at h
  tauto

theorem mem_tagText {c : Char} {pay : List Char} (h : c ∈ tagText pay) :
    c ∈ pSVFM ∨ c ∈ pay ∨ c ∈ pRB := by
  simp only [tagText, List.mem_append] at h
  tauto

theorem mem_commentText {c : Char} {pay : List Char} (h : c ∈ commentText pay) :
    c ∈ pComStart ∨ c ∈ pay ∨ c ∈ pComEnd := by
  simp only [commentText, List.mem_append] at h
  tauto

theorem blankEntityF_cons (n : Nat) (s rep pay rest : List Char)
    (hne : s ≠ []) (h : matchEntity s = some (rep, pay, rest)) :
    blankEntityF (n + 1) s = rep ++ blankEntityF n rest := by
  cases s with
  | nil => exact absurd rfl hne
  | cons c cs => rw [blankEntityF, h]

theorem findEntityPayloadF_cons (n : Nat) (s rep pay rest : List Char)
    (hne : s ≠ []) (h : matchEntity s = some (rep, pay, rest)) :
    findEntityPayloadF (n + 1) s = some pay := by
  cases s with
  | nil => exact absurd rfl hne
  | cons c cs => rw [findEntityPayloadF, h]

theorem decodePayload_nil : decodePayload [] = FaceRecord.empty := rfl

/-! ### The three stripping passes on an embedded file -/

theorem stripSVFM_inject (r : FaceRecord) (pre mid1 mid2 post : List Char)
    (hb1 : '[' ∉ pre) (hb2 : '[' ∉ mid1) (hb3 : '[' ∉ mid2) (hb4 : '[' ∉ post) :
    stripSVFM (inject_meta_into_step r pre mid1 mid2 post) =
      pre ++ (entityText tagSVFM (encodePayload r) ++
        (mid1 ++ (mid2 ++ (commentText (encodePayload r) ++ post)))) := by
  have hPl : '[' ∉ encodePayload r := payload_safe r (by decide)
  have hPr : ']' ∉ encodePayload r := payload_safe r (by decide)
  have hX : inject_meta_into_step r pre mid1 mid2 post =
      (pre ++ (entityText tagSVFM (encodePayload r) ++ mid1)) ++
        (pSVFM ++ (encodePayload r ++ (']' ::
          (mid2 ++ (commentText (encodePayload r) ++ post))))) := by
    simp [inject_meta_into_step, tagText, show pRB = [']'] from rfl]
  have hA : '[' ∉ pre ++ (entityText tagSVFM (encodePayload r) ++ mid1) := by
    intro h
    rcases List.mem_append.1 h with h | h
    · exact hb1 h
    rcases List.mem_append.1 h with h | h
    · rcases mem_entityText h with h | h | h | h | h | h | h
      · exact absurd h (by decide)
      · exact absurd h (by decide)
      · exact absurd h (by decide)
      · exact absurd h (by decide)
      · exact absurd h (by decide)
      · exact hPl h
      · exact absurd h (by decide)
    · exact hb2 h
  have hB : '[' ∉ mid2 ++ (commentText (encodePayload r) ++ post) := by
    intro h
    rcases List.mem_append.1 h with h | h
    · exact hb3 h
    rcases List.mem_append.1 h with h | h
    · rcases mem_commentText h with h | h | h
      · exact absurd h (by decide)
      · exact hPl h
      · exact absurd h (by decide)
    · exact hb4 h
  unfold stripSVFM
  rw [hX]
  rw [stripSVFMF_append _ _ _ (fun i hi => no_match_start_charFree hA _ i hi)]
  have h6 : pSVFM.length = 6 := rfl
  obtain ⟨m, hm⟩ : ∃ m,
      ((pre ++ (entityText tagSVFM (encodePayload r) ++ mid1)) ++
        (pSVFM ++ (encodePayload r ++ (']' ::
          (mid2 ++ (commentText (encodePayload r) ++ post)))))).length -
        (pre ++ (entityText tagSVFM (encodePayload r) ++ mid1)).length =
        m + 1 := by
    refine ⟨pSVFM.length + (encodePayload r).length +
      (mid2 ++ (commentText (encodePayload r) ++ post)).length, ?_⟩
    simp [List.length_append]
    omega
  rw [hm, stripSVFMF_match m _ _ hPr]
  rw [stripSVFMF_no_occurrence m _
    (not_infix_of_not_mem (show '[' ∈ pSVFM by decide) hB)]
  simp [List.append_assoc]

theorem stripComment_mid (r : FaceRecord) (pre mid1 mid2 post : List Char)
    (hs1 : '/' ∉ pre) (hs2 : '/' ∉ mid1) (hs3 : '/' ∉ mid2) (hs4 : '/' ∉ post) :
    stripComment (pre ++ (entityText tagSVFM (encodePayload r) ++
        (mid1 ++ (mid2 ++ (commentText (encodePayload r) ++ post))))) =
      pre ++ (entityText tagSVFM (encodePayload r) ++ (mid1 ++ (mid2 ++ post))) := by
  have hPs : '/' ∉ encodePayload r := payload_safe r (by decide)
  have hPw : ' ' ∉ encodePayload r := payload_safe r (by decide)
  have hX : pre ++ (entityText tagSVFM (encodePayload r) ++
      (mid1 ++ (mid2 ++ (commentText (encodePayload r) ++ post)))) =
      (pre ++ (entityText tagSVFM (encodePayload r) ++ (mid1 ++ mid2))) ++
        (pComStart ++ (encodePayload r ++ (pComEnd ++ post))) := by
    simp [commentText, List.append_assoc]
  have hA : '/' ∉ pre ++ (entityText tagSVFM (encodePayload r) ++ (mid1 ++ mid2)) := by
    intro h
    rcases List.mem_append.1 h with h | h
    · exact hs1 h
    rcases List.mem_append.1 h with h | h
    · rcases mem_entityText h with h | h | h | h | h | h | h
      · exact absurd h (by decide)
      · exact absurd h (by decide)
      · exact absurd h (by decide)
      · exact absurd h (by decide)
      · exact absurd h (by decide)
      · exact hPs h
      · exact absurd h (by decide)
    rcases List.mem_append.1 h with h | h
    · exact hs2 h
    · exact hs3 h
  unfold stripComment
  rw [hX]
  rw [stripCommentF_append _ _ _ (fun i hi => no_match_start_charFree hA _ i hi)]
  have h29 : pComStart.length = 29 := rfl
  obtain ⟨m, hm⟩ : ∃ m,
      ((pre ++ (entityText tagSVFM (encodePayload r) ++ (mid1 ++ mid2))) ++
        (pComStart ++ (encodePayload r ++ (pComEnd ++ post)))).length -
        (pre ++ (entityText tagSVFM (encodePayload r) ++ (mid1 ++ mid2))).length =
        m + 1 := by
    refine ⟨pComStart.length + (encodePayload r).length +
      (pComEnd ++ post).length - 1, ?_⟩
    simp [List.length_append]
    omega
  rw [hm, stripCommentF_match m _ _ hPw]
  rw [stripCommentF_no_occurrence m _
    (not_infix_of_not_mem (show '/' ∈ pComStart by decide) hs4)]
  simp [List.append_assoc]

theorem blankEntity_gen (a b tag pay w1 w2 w3 w4 w5 : List Char)
    (htag : tag = tagSVFM ∨ tag = tagLong)
    (h1 : ∀ x ∈ w1, isWS x = true) (h2 : ∀ x ∈ w2, isWS x = true)
    (h3 : ∀ x ∈ w3, isWS x = true) (h4 : ∀ x ∈ w4, isWS x = true)
    (h5 : ∀ x ∈ w5, isWS x = true) (hqc : qc ∉ pay)
    (hd1 : ¬ pDRI <:+: a) (hd2 : ¬ pDRI <:+: b) :
    blankEntity (a ++ (entityGen tag pay w1 w2 w3 w4 w5 ++ b)) =
      a ++ (entityGen tag [] w1 w2 w3 w4 w5 ++ b) := by
  have hET : entityGen tag pay w1 w2 w3 w4 w5 ++ b =
      pDRI ++ ((w1 ++ '(' :: w2 ++ qc :: tag ++ qc :: w3 ++ ',' :: w4 ++
        qc :: pay ++ qc :: w5 ++ [')']) ++ b) := by
    simp [entityGen]
  have hskip : ∀ i, i < a.length →
      matchEntity (a.drop i ++ (entityGen tag pay w1 w2 w3 w4 w5 ++ b)) = none := by
    intro i hi
    apply matchEntity_none
    intro hp
    rw [hET] at hp
    exact no_match_start_border _ (by decide) hd1 i hi hp
  have hmg : matchEntity (entityGen tag pay w1 w2 w3 w4 w5 ++ b) =
      some (entityGen tag [] w1 w2 w3 w4 w5, pay, b) :=
    matchEntity_gen tag pay w1 w2 w3 w4 w5 b htag h1 h2 h3 h4 h5 hqc
  have h31 : pDRI.length = 31 := rfl
  have hlenET : (entityGen tag pay w1 w2 w3 w4 w5 ++ b).length =
      pDRI.length + ((w1 ++ '(' :: w2 ++ qc :: tag ++ qc :: w3 ++ ',' :: w4 ++
        qc :: pay ++ qc :: w5 ++ [')']) ++ b).length := by
    rw [hET, List.length_append]
  have hne : entityGen tag pay w1 w2 w3 w4 w5 ++ b ≠ [] := by
    intro h
    rw [h] at hlenET
    simp at hlenET
    omega
  unfold blankEntity
  rw [blankEntityF_append _ _ _ hskip]
  obtain ⟨m, hm⟩ : ∃ m,
      (a ++ (entityGen tag pay w1 w2 w3 w4 w5 ++ b)).length - a.length = m + 1 := by
    refine ⟨(entityGen tag pay w1 w2 w3 w4 w5 ++ b).length - 1, ?_⟩
    rw [List.length_append]
    omega
  rw [hm, blankEntityF_cons m _ _ _ _ hne hmg]
  rw [blankEntityF_no_occurrence m _ hd2]

theorem extract_of_blanked (pre rest3 : List Char)
    (hb : '[' ∉ pre) (hb2 : '[' ∉ rest3)
    (hs : '/' ∉ pre) (hs2 : '/' ∉ rest3)
    (hd1 : ¬ pDRI <:+: pre) :
    extract_meta_from_step (pre ++ (entityText tagSVFM [] ++ rest3)) =
      FaceRecord.empty := by
  have hentL : ∀ ch : Char, ch ≠ '(' → ch ≠ qc → ch ≠ ',' → ch ≠ ')' →
      ch ∉ pDRI → ch ∉ tagSVFM → ch ∉ entityText tagSVFM [] := by
    intro ch e1 e2 e3 e4 e5 e6 h
    rcases mem_entityText h with h | h | h | h | h | h | h
    · exact e5 h
    · exact e1 h
    · exact e2 h
    · exact e6 h
    · exact e3 h
    · exact absurd h (List.not_mem_nil ch)
    · exact e4 h
  have hR1 : '[' ∉ pre ++ (entityText tagSVFM [] ++ rest3) := by
    intro h
    rcases List.mem_append.1 h with h | h
    · exact hb h
    rcases List.mem_append.1 h with h | h
    · exact hentL '[' (by decide) (by decide) (by decide) (by decide)
        (by decide) (by decide) h
    · exact hb2 h
  have hR2 : '/' ∉ pre ++ (entityText tagSVFM [] ++ rest3) := by
    intro h
    rcases List.mem_append.1 h with h | h
    · exact hs h
    rcases List.mem_append.1 h with h | h
    · exact hentL '/' (by decide) (by decide) (by decide) (by decide)
        (by decide) (by decide) h
    · exact hs2 h
  have hET : entityText tagSVFM [] ++ rest3 =
      pDRI ++ (('(' :: qc :: tagSVFM ++ qc :: ',' :: qc :: qc :: [')']) ++ rest3) := by
    simp [entityText]
  have hskip : ∀ i, i < pre.length →
      matchEntity (pre.drop i ++ (entityText tagSVFM [] ++ rest3)) = none := by
    intro i hi
    apply matchEntity_none
    intro hp
    rw [hET] at hp
    exact no_match_start_border _ (by decide) hd1 i hi hp
  have hmg : matchEntity (entityText tagSVFM [] ++ rest3) =
      some (entityText tagSVFM [], [], rest3) :=
    matchEntity_gen tagSVFM [] [] [] [] [] [] rest3 (Or.inl rfl)
      (fun x hx => absurd hx (List.not_mem_nil x))
      (fun x hx => absurd hx (List.not_mem_nil x))
      (fun x hx => absurd hx (List.not_mem_nil x))
      (fun x hx => absurd hx (List.not_mem_nil x))
      (fun x hx => absurd hx (List.not_mem_nil x))
      (List.not_mem_nil qc)
  have h31 : pDRI.length = 31 := rfl
  have hlenET : (entityText tagSVFM [] ++ rest3).length =
      pDRI.length + (('(' :: qc :: tagSVFM ++ qc :: ',' :: qc :: qc :: [')']) ++
        rest3).length := by
    rw [hET, List.length_append]
  have hne : entityText tagSVFM [] ++ rest3 ≠ [] := by
    intro h
    rw [h] at hlenET
    simp at hlenET
    omega
  unfold extract_meta_from_step
  rw [findTagPayloadF_none _ hR1, findCommentPayloadF_none _ hR2]
  rw [findEntityPayloadF_append _ _ _ hskip]
  obtain ⟨m, hm⟩ : ∃ m,
      (pre ++ (entityText tagSVFM [] ++ rest3)).length - pre.length = m + 1 := by
    refine ⟨(entityText tagSVFM [] ++ rest3).length - 1, ?_⟩
    rw [List.length_append]
    omega
  rw [hm, findEntityPayloadF_cons m _ _ _ _ hne hmg]
  rfl

/-- C2.  Strip completeness: (i) for every record embedded into a host file
via all three strategies, applying the purge workflow's three stripping
substitutions yields a text from which extraction returns the empty record
(the host pieces are assumed free of the three pattern triggers: no `[`,
no `/`, and no occurrence of the entity keyword); and (ii) the purge file
stage re-runs extraction on the stripped text and reports residue in its
result rather than failing — it always answers `.ok`, carrying the
re-extraction verdict as a warning flag. -/
theorem strip_completeness :
    (∀ (r : FaceRecord) (pre mid1 mid2 post : List Char),
      '[' ∉ pre → '[' ∉ mid1 → '[' ∉ mid2 → '[' ∉ post →
      '/' ∉ pre → '/' ∉ mid1 → '/' ∉ mid2 → '/' ∉ post →
      ¬ pDRI <:+: pre → ¬ pDRI <:+: (mid1 ++ (mid2 ++ post)) →
      extract_meta_from_step (stripFileMeta
        (inject_meta_into_step r pre mid1 mid2 post)) = FaceRecord.empty) ∧
    (∀ (st : SysState) (u : String) (content : List Char),
      alookup st.files u = some content →
      fileStage st u "file" = .ok
        ({ st with files := aupdate [] (fun _ => stripFileMeta content) st.files u },
         !(extract_meta_from_step (stripFileMeta content)).isEmpty,
         ["Stripped STEP file"])) := by
  constructor
  · intro r pre mid1 mid2 post hb1 hb2 hb3 hb4 hs1 hs2 hs3 hs4 hd1 hd2
    unfold stripFileMeta
    rw [stripSVFM_inject r pre mid1 mid2 post hb1 hb2 hb3 hb4]
    rw [stripComment_mid r pre mid1 mid2 post hs1 hs2 hs3 hs4]
    rw [show entityText tagSVFM (encodePayload r) =
      entityGen tagSVFM (encodePayload r) [] [] [] [] [] by
        simp [entityText, entityGen]]
    rw [blankEntity_gen pre (mid1 ++ (mid2 ++ post)) tagSVFM (encodePayload r)
      [] [] [] [] [] (Or.inl rfl)
      (fun x hx => absurd hx (List.not_mem_nil x))
      (fun x hx => absurd hx (List.not_mem_nil x))
      (fun x hx => absurd hx (List.not_mem_nil x))
      (fun x hx => absurd hx (List.not_mem_nil x))
      (fun x hx => absurd hx (List.not_mem_nil x))
      (payload_safe r (by decide)) hd1 hd2]
    rw [show entityGen tagSVFM [] [] [] [] [] [] =
      entityText tagSVFM [] by simp [entityText, entityGen]]
    refine extract_of_blanked pre (mid1 ++ (mid2 ++ post)) hb1 ?_ hs1 ?_ hd1
    · intro h
      rcases List.mem_append.1 h with h | h
      · exact hb2 h
      rcases List.mem_append.1 h with h | h
      · exact hb3 h
      · exact hb4 h
    · intro h
      rcases List.mem_append.1 h with h | h
      · exact hs2 h
      rcases List.mem_append.1 h with h | h
      · exact hs3 h
      · exact hs4 h
  · intro st u content hf
    exact fileStage_strip st u "file" content (Or.inl rfl) hf

/-- Witness for C2: a concrete record embedded into the host pieces `"P"`,
`"M"`, `"N"`, `"Q"` strips back to the empty record. -/
theorem strip_completeness_witness :
    extract_meta_from_step (stripFileMeta (inject_meta_into_step
      { color := some "#FF0000",
        thread := some ⟨"M", "M6", "1.0", "6H"⟩ }
      ['P'] ['M'] ['N'] ['Q'])) = FaceRecord.empty :=
  strip_completeness.1
    { color := some "#FF0000", thread := some ⟨"M", "M6", "1.0", "6H"⟩ }
    ['P'] ['M'] ['N'] ['Q']
    (by decide) (by decide) (by decide) (by decide)
    (by decide) (by decide) (by decide) (by decide)
    (by decide) (by decide)

/-- C7.  Byte-range-safe entity blanking: on a text consisting of an
arbitrary keyword-free prefix, a strategy-1 entity in its full generality
(either tag, arbitrary `\s*` whitespace runs, quote-free payload), and a
keyword-free suffix, the strategy-1 substitution returns the prefix and
suffix byte-identical and the entity with keyword, parentheses, tag string,
quotes and whitespace preserved and only its quoted payload blanked. -/
theorem entity_blanking_byte_safe
    (a b tag pay w1 w2 w3 w4 w5 : List Char)
    (htag : tag = tagSVFM ∨ tag = tagLong)
    (h1 : ∀ x ∈ w1, isWS x = true) (h2 : ∀ x ∈ w2, isWS x = true)
    (h3 : ∀ x ∈ w3, isWS x = true) (h4 : ∀ x ∈ w4, isWS x = true)
    (h5 : ∀ x ∈ w5, isWS x = true) (hqc : qc ∉ pay)
    (hd1 : ¬ pDRI <:+: a) (hd2 : ¬ pDRI <:+: b) :
    blankEntity (a ++ (entityGen tag pay w1 w2 w3 w4 w5 ++ b)) =
      a ++ (entityGen tag [] w1 w2 w3 w4 w5 ++ b) :=
  blankEntity_gen a b tag pay w1 w2 w3 w4 w5 htag h1 h2 h3 h4 h5 hqc hd1 hd2

/-- Witness for C7: a concrete surrounding text and a
`StepViewerFaceMetadata`-tagged entity with whitespace and payload
`"cafe"`; only the payload is blanked. -/
theorem entity_blanking_byte_safe_witness :
    blankEntity (['x'] ++ (entityGen tagLong "cafe".toList [' '] [] [' '] []
        [' '] ++ ['y'])) =
      ['x'] ++ (entityGen tagLong [] [' '] [] [' '] [] [' '] ++ ['y']) :=
  entity_blanking_byte_safe ['x'] ['y'] tagLong "cafe".toList
    [' '] [] [' '] [] [' '] (Or.inr rfl)
    (by decide) (by decide) (by decide) (by decide) (by decide)
    (by decide) (by decide) (by decide)

end Scribe
